import Mathlib

/-!
Verification of the rfcxml-mcp core against its natural-language
specification.  The TypeScript sources are shallowly embedded: strings are
manipulated as `List Char` (`Chars`), JavaScript regular expressions are
replaced by equivalent deterministic scanners (leftmost match, ordered
alternation, greedy quantifiers resolved where forced), and the stateful
loops become folds with explicit state.  Every definition mirrors a named
function of the repository; deviations forced by the functional setting
(e.g. attaching a child section when it is popped from the stack instead of
mutating it in place) are noted next to the definition.
-/

set_option maxRecDepth 8000

namespace RfcMcp

/-- Character list representation of JavaScript strings. -/
abbrev Chars := List Char

/-- JS `\w` character class: ASCII letters, digits and underscore. -/
def isWordChar (c : Char) : Bool :=
  c.isAlphanum || c = '_'

/-- ASCII lower-casing, as JS `toLowerCase` acts on the ASCII range. -/
def lowerChars (cs : Chars) : Chars := cs.map Char.toLower

/-- ASCII upper-casing, as JS `toUpperCase` acts on the ASCII range. -/
def upperChars (cs : Chars) : Chars := cs.map Char.toUpper

/-- Case-insensitive literal match of `pat` at the start of `s`
(the pattern is given in lower case). -/
def ciStarts (pat : Chars) (s : Chars) : Bool :=
  pat.isPrefixOf (lowerChars (s.take pat.length))

/-- JS `String.prototype.includes`: `needle` occurs somewhere in `hay`. -/
def containsSub (hay needle : Chars) : Bool :=
  match hay with
  | [] => needle.isEmpty
  | _ :: tl => needle.isPrefixOf hay || containsSub tl needle

/-- JS `String.prototype.indexOf`: index of the first occurrence. -/
def firstIndexOf (hay needle : Chars) : Option Nat :=
  match hay with
  | [] => if needle.isEmpty then some 0 else none
  | _ :: tl =>
    if needle.isPrefixOf hay then some 0
    else (firstIndexOf tl needle).map (· + 1)

/-- JS `String.prototype.trim`: drop whitespace at both ends. -/
def trimChars (cs : Chars) : Chars :=
  ((cs.dropWhile Char.isWhitespace).reverse.dropWhile Char.isWhitespace).reverse

/-- JS `parseInt(s, 10)` restricted to what the sources feed it: optional
leading whitespace then a run of decimal digits; no digits means `NaN`,
modelled as `none`. -/
def tsParseInt (s : Chars) : Option Nat :=
  let ds := (s.dropWhile Char.isWhitespace).takeWhile Char.isDigit
  if ds.isEmpty then none
  else some (ds.foldl (fun n c => 10 * n + (c.toNat - '0'.toNat)) 0)

/-!
Splitting on runs of whitespace, as JS `split(/\s+/)`: a maximal whitespace
run is one separator, and a leading/trailing run contributes an empty field
(those empty fields are discarded by every caller's length filters).
`splitWsGo` accumulates the current field, `splitWsSkip` consumes the rest
of a whitespace run.
-/

mutual

def splitWsGo : Chars → Chars → List Chars
  | [], acc => [acc.reverse]
  | c :: rest, acc =>
    if c.isWhitespace then acc.reverse :: splitWsSkip rest
    else splitWsGo rest (c :: acc)

def splitWsSkip : Chars → List Chars
  | [] => [[]]
  | c :: rest =>
    if c.isWhitespace then splitWsSkip rest
    else splitWsGo rest [c]

end

def splitWs (cs : Chars) : List Chars := splitWsGo cs []

/-- JS `split('.')` on a string (used for dotted section numbers). -/
def splitDots (cs : Chars) : List Chars :=
  match cs with
  | [] => [[]]
  | '.' :: rest => [] :: splitDots rest
  | c :: rest =>
    match splitDots rest with
    | [] => [[c]]
    | w :: ws => (c :: w) :: ws

/-!
## Keyword registry (`src/constants.ts`)
-/

/-- The closed enum of BCP 14 requirement levels (`RequirementLevel`). -/
inductive RequirementLevel where
  | must | mustNot | required | shall | shallNot
  | should | shouldNot | recommended | notRecommended
  | may | optionalLv
deriving DecidableEq, Repr

/-- Surface keyword of each level, exactly as in `types/index.ts`. -/
def keywordOf : RequirementLevel → String
  | .must => "MUST"
  | .mustNot => "MUST NOT"
  | .required => "REQUIRED"
  | .shall => "SHALL"
  | .shallNot => "SHALL NOT"
  | .should => "SHOULD"
  | .shouldNot => "SHOULD NOT"
  | .recommended => "RECOMMENDED"
  | .notRecommended => "NOT RECOMMENDED"
  | .may => "MAY"
  | .optionalLv => "OPTIONAL"

/-- `REQUIREMENT_KEYWORDS`: the ordered alternation list of `constants.ts`
(longer keyword before its prefix, e.g. MUST NOT before MUST). -/
def REQUIREMENT_KEYWORDS : List RequirementLevel :=
  [.mustNot, .must, .required, .shallNot, .shall,
   .shouldNot, .should, .recommended, .notRecommended, .may, .optionalLv]

/-- Does keyword `kw` match at position `i` of `text`, including the two
`\b` word boundaries of the regex `\b(KW1|KW2|...)\b`?  Every keyword starts
and ends with a word character, so the boundaries amount to: the character
before `i` (if any) is not a word character, and the character after the
match (if any) is not a word character. -/
def matchesAt (text : Chars) (i : Nat) (kw : Chars) : Bool :=
  kw.isPrefixOf (text.drop i) &&
  (match i with
   | 0 => true
   | j + 1 => match text.get? j with
     | some c => !isWordChar c
     | none => false) &&
  (match text.get? (i + kw.length) with
   | some c => !isWordChar c
   | none => true)

/-- Ordered alternation at one position: the first keyword of
`REQUIREMENT_KEYWORDS` that matches wins, as in a JS regex alternation. -/
def tryKeywordsAt (text : Chars) (i : Nat) : Option RequirementLevel :=
  REQUIREMENT_KEYWORDS.find? (fun k => matchesAt text i (keywordOf k).data)

theorem keywordOf_length_pos (k : RequirementLevel) :
    0 < (keywordOf k).data.length := by
  cases k <;> decide

/-- The global `exec` loop of `createRequirementRegex()`: leftmost matches,
each consuming its keyword, yielding `(level, position)` marker pairs.  This
models both `extractRequirementMarkers` and the scan in `createTextBlocks`.
The scan is written with explicit fuel so that it reduces in the kernel;
every step advances the position by at least one, so `text.length - i` fuel
is always enough (`scanFrom` supplies it). -/
def scanFuel (text : Chars) : Nat → Nat → List (RequirementLevel × Nat)
  | 0, _ => []
  | fuel + 1, i =>
    if i < text.length then
      match tryKeywordsAt text i with
      | some k => (k, i) :: scanFuel text fuel (i + (keywordOf k).data.length)
      | none => scanFuel text fuel (i + 1)
    else []

def scanFrom (text : Chars) (i : Nat) : List (RequirementLevel × Nat) :=
  scanFuel text (text.length - i) i

/-- Requirement markers of a text, as produced by the shared keyword scan. -/
def scanMarkers (text : String) : List (RequirementLevel × Nat) :=
  scanFrom text.data 0

/-- `extractRequirementLevel` (statement-matcher): first keyword match in the
upper-cased text, `null` when there is none. -/
def extractRequirementLevel (text : String) : Option RequirementLevel :=
  (scanFrom (upperChars text.data) 0).head?.map Prod.fst

/-!
## Statement matcher and conflict detector (`utils/statement-matcher.ts`,
current version with semantic negation analysis)
-/

/-- Lower-casing on whole strings (JS `toLowerCase`, ASCII range). -/
def strLower (s : String) : String := (lowerChars s.data).asString

/-- `TECHNICAL_TERMS` (weight-2 vocabulary). -/
def TECHNICAL_TERMS : List String :=
  ["client", "server", "sender", "receiver", "endpoint", "connection",
   "request", "response", "message", "packet", "segment", "frame", "header",
   "payload", "handshake", "port", "socket", "stream", "timeout",
   "retransmit", "acknowledgment", "sequence", "congestion", "method",
   "status", "resource", "cache", "proxy", "origin", "authentication",
   "authorization", "certificate", "encryption", "signature", "token",
   "implementation", "specification", "protocol", "algorithm", "parameter",
   "field", "value", "error", "failure", "valid", "invalid"]

/-- `STOP_WORDS` (ignored tokens; the source lists "could" twice). -/
def STOP_WORDS : List String :=
  ["the", "this", "that", "with", "from", "have", "been", "will", "when",
   "where", "what", "which", "there", "their", "they", "them", "than",
   "then", "each", "other", "some", "such", "only", "also", "more", "most",
   "case", "does", "into", "over", "used", "same", "after", "before",
   "about", "being", "could", "would", "should", "could"]

/-- `SUBJECT_TERMS` (actor vocabulary, weight 3). -/
def SUBJECT_TERMS : List String :=
  ["client", "server", "sender", "receiver", "endpoint", "implementation",
   "peer", "host", "proxy", "application", "user", "agent"]

/-- `word.replace(/[^a-z0-9]/g, '')` on already lower-cased words. -/
def cleanAlnum (w : Chars) : Chars :=
  w.filter (fun c => ('a' ≤ c && c ≤ 'z') || c.isDigit)

/-- `word.replace(/[^a-z]/g, '')` (used by `extractSubject`). -/
def cleanAlpha (w : Chars) : Chars :=
  w.filter (fun c => 'a' ≤ c && c ≤ 'z')

/-- Insertion-ordered map update, as a JS `Map` accumulating weights. -/
def addWeight (m : List (String × Nat)) (k : String) (w : Nat) :
    List (String × Nat) :=
  if m.any (fun p => p.1 = k) then
    m.map (fun p => if p.1 = k then (p.1, p.2 + w) else p)
  else m ++ [(k, w)]

/-- `extractKeywords`: lower-case, split on whitespace, clean punctuation,
drop short tokens and stop words, weight 1/2/3, accumulate per token. -/
def extractKeywords (text : String) : List (String × Nat) :=
  (splitWs (lowerChars text.data)).foldl
    (fun m w =>
      let cleaned := (cleanAlnum w).asString
      if cleaned.length < 3 then m
      else if STOP_WORDS.contains cleaned then m
      else
        let weight := 1
        let weight := if TECHNICAL_TERMS.contains cleaned then 2 else weight
        let weight := if SUBJECT_TERMS.contains cleaned then 3 else weight
        addWeight m cleaned weight)
    []

/-- `extractSubject`: first whitespace-token whose alphabetic cleaning is a
subject term. -/
def extractSubject (text : String) : Option String :=
  (splitWs (lowerChars text.data)).findSome? fun w =>
    let cleaned := (cleanAlpha w).asString
    if SUBJECT_TERMS.contains cleaned then some cleaned else none

/-- One entry of `NEGATION_PAIRS`. -/
structure NegationPair where
  positive : String
  negative : List String
deriving DecidableEq, Repr

/-- `NEGATION_PAIRS`: verb with its negated surface forms. -/
def NEGATION_PAIRS : List NegationPair :=
  [⟨"mask", ["unmask", "unmasked", "not mask", "without mask", "without masking"]⟩,
   ⟨"encrypt", ["unencrypt", "unencrypted", "not encrypt", "without encrypt",
                "without encryption"]⟩,
   ⟨"validate", ["not validate", "skip validation", "skips validation",
                 "without validation", "no validation"]⟩,
   ⟨"verify", ["not verify", "unverified", "without verification",
               "skip verification"]⟩,
   ⟨"authenticate", ["unauthenticated", "not authenticate",
                     "without authentication", "skip authentication"]⟩,
   ⟨"send", ["not send", "never send", "block"]⟩,
   ⟨"receive", ["not receive", "reject", "ignore"]⟩,
   ⟨"accept", ["reject", "not accept", "refuse"]⟩,
   ⟨"include", ["exclude", "omit", "not include"]⟩,
   ⟨"support", ["not support", "unsupported"]⟩,
   ⟨"allow", ["disallow", "not allow", "forbid", "prohibit"]⟩,
   ⟨"enable", ["disable", "not enable"]⟩,
   ⟨"close", ["not close", "keep open"]⟩,
   ⟨"open", ["not open", "close"]⟩]

/-- `hasPositiveAction`: no negative surface form present, and the positive
verb occurs as a substring of the lower-cased text. -/
def hasPositiveAction (text : String) (pair : NegationPair) : Bool :=
  let lower := lowerChars text.data
  if pair.negative.any (fun neg => containsSub lower neg.data) then false
  else containsSub lower pair.positive.data

/-- `hasNegativeAction`: some negative surface form occurs. -/
def hasNegativeAction (text : String) (pair : NegationPair) : Bool :=
  let lower := lowerChars text.data
  pair.negative.any (fun neg => containsSub lower neg.data)

/-- `actionsContradict`: one side positive, the other negative, for some
negation pair. -/
def actionsContradict (action1 action2 : String) : Bool :=
  NEGATION_PAIRS.any fun pair =>
    (hasPositiveAction action1 pair && hasNegativeAction action2 pair) ||
    (hasNegativeAction action1 pair && hasPositiveAction action2 pair)

/-- `Requirement` (`types/index.ts`). -/
structure Requirement where
  id : String
  level : RequirementLevel
  text : String
  subject : Option String := none
  action : Option String := none
  condition : Option String := none
  exception : Option String := none
  «section» : String
  sectionTitle : String
  fullContext : String
deriving DecidableEq, Repr

/-- `ConflictResult` (statement matcher). -/
structure ConflictResult where
  requirement : Requirement
  reason : String
  statementLevel : Option RequirementLevel
  requirementLevel : RequirementLevel
deriving DecidableEq, Repr

/-- The `conflictingLevels` table of `detectConflicts`: which requirement
levels a statement level conflicts with. -/
def conflictingLevels : RequirementLevel → List RequirementLevel
  | .may => [.must, .mustNot, .shall, .shallNot]
  | .optionalLv => [.must, .mustNot, .required, .shall, .shallNot]
  | .should => [.mustNot, .shallNot]
  | .shouldNot => [.must, .shall, .required]
  | .recommended => [.mustNot, .shallNot]
  | .notRecommended => [.must, .shall, .required]
  | .must => []
  | .mustNot => []
  | .required => []
  | .shall => []
  | .shallNot => []

/-- `req.subject?.toLowerCase() || extractSubject(req.text)`: the declared
subject lower-cased, unless absent or empty (JS falsy), in which case the
subject is extracted from the requirement text. -/
def reqSubjectOf (req : Requirement) : Option String :=
  match req.subject with
  | some s => if s = "" then extractSubject req.text else some (strLower s)
  | none => extractSubject req.text

/-- `req.action || req.text` (JS falsy fallback on the empty string). -/
def reqActionOf (req : Requirement) : String :=
  match req.action with
  | some a => if a = "" then req.text else a
  | none => req.text

/-- `reqAction.replace(/must not|shall not/gi, '')`: delete every
case-insensitive occurrence, trying "must not" before "shall not" at each
position as the regex alternation does. -/
def stripForbiddenFuel : Nat → Chars → Chars
  | 0, cs => cs
  | _ + 1, [] => []
  | fuel + 1, c :: rest =>
    if ciStarts "must not".data (c :: rest) then
      stripForbiddenFuel fuel ((c :: rest).drop 8)
    else if ciStarts "shall not".data (c :: rest) then
      stripForbiddenFuel fuel ((c :: rest).drop 9)
    else c :: stripForbiddenFuel fuel rest

def stripForbiddenLevel (cs : Chars) : Chars :=
  stripForbiddenFuel cs.length cs

/-- Level-pair check ("Check 1" of `detectConflicts`): a statement level in
conflict with the requirement level, confirmed by keyword overlap or by the
statement being short. -/
def levelPairConflict (statementLevel : Option RequirementLevel)
    (statementKeywords : List (String × Nat)) (req : Requirement) :
    Option ConflictResult :=
  match statementLevel with
  | some slv =>
    if (conflictingLevels slv).contains req.level then
      let reqText := strLower req.text
      let overlap :=
        (statementKeywords.filter (fun kw => containsSub reqText.data kw.1.data)).length
      if overlap ≥ 2 || statementKeywords.length ≤ 3 then
        some ⟨req,
          "Statement uses \"" ++ keywordOf slv ++ "\" but requirement uses \"" ++
            keywordOf req.level ++ "\"",
          statementLevel, req.level⟩
      else none
    else none
  | none => none

/-- The loop body of `detectConflicts` for one subject-matching requirement;
`continue` after a successful check becomes returning the first result. -/
def conflictFor (statementLevel : Option RequirementLevel)
    (statementKeywords : List (String × Nat)) (statementLower : String)
    (statementSubject : String) (req : Requirement) : Option ConflictResult :=
  if reqSubjectOf req ≠ some statementSubject then none
  else
    match levelPairConflict statementLevel statementKeywords req with
    | some c => some c
    | none =>
      let reqAction := reqActionOf req
      if req.level = .must || req.level = .shall || req.level = .required then
        -- Check 2: the statement contradicts a required action
        if actionsContradict statementLower reqAction then
          some ⟨req,
            "Statement action contradicts \"" ++ keywordOf req.level ++
              "\" requirement: \"" ++ reqAction ++ "\"",
            statementLevel, req.level⟩
        else none
      else if req.level = .mustNot || req.level = .shallNot then
        -- Check 3: the statement performs the forbidden action; only the
        -- pair whose positive verb appears within the first 20 characters
        -- of the forbidden-action text is considered
        let forbiddenAction := (trimChars (stripForbiddenLevel reqAction.data)).asString
        let forbiddenLower := lowerChars forbiddenAction.data
        match NEGATION_PAIRS.find? (fun pair =>
            (match firstIndexOf forbiddenLower pair.positive.data with
             | some idx => decide (idx ≤ 20)
             | none => false) &&
            hasPositiveAction statementLower pair) with
        | some _ =>
          some ⟨req,
            "Statement does what \"" ++ keywordOf req.level ++ "\" forbids: \"" ++
              forbiddenAction ++ "\"",
            statementLevel, req.level⟩
        | none => none
      else none

/-- `detectConflicts` (current statement matcher): gated on an extractable
statement subject; each subject-matching requirement contributes at most one
conflict via the level-pair or the semantic checks. -/
def detectConflicts (statement : String) (requirements : List Requirement) :
    List ConflictResult :=
  let statementLevel := extractRequirementLevel statement
  match extractSubject statement with
  | none => []
  | some subj =>
    let statementKeywords := extractKeywords statement
    let statementLower := strLower statement
    requirements.filterMap
      (conflictFor statementLevel statementKeywords statementLower subj)

/-!
## Concrete WebSocket-style requirements used by the conflict-detection
claims (the records of `statement-matcher` semantic tests)
-/

/-- The MUST requirement "a client MUST mask all frames it sends". -/
def reqClientMustMask : Requirement :=
  { id := "", level := .must,
    text := "A client MUST mask all frames that it sends to the server.",
    subject := some "client",
    action := some "mask all frames that it sends to the server",
    «section» := "5.1", sectionTitle := "",
    fullContext := "A client MUST mask all frames that it sends to the server." }

/-- The MUST NOT requirement "a server MUST NOT mask any frames". -/
def reqServerMustNotMask : Requirement :=
  { id := "", level := .mustNot,
    text := "A server MUST NOT mask any frames that it sends to the client.",
    subject := some "server",
    action := some "mask any frames that it sends to the client",
    «section» := "5.1", sectionTitle := "",
    fullContext := "A server MUST NOT mask any frames that it sends to the client." }

/-- A MUST requirement with subject "client" (level-pair conflict example). -/
def reqClientMustSend : Requirement :=
  { id := "", level := .must,
    text := "The client MUST send a request.",
    subject := some "client",
    «section» := "1", sectionTitle := "",
    fullContext := "In all cases, the client MUST send a request to the server." }

/-- C1: for the requirement `{level: MUST, subject: client, action: "mask all
frames that it sends to the server"}`, the conflict detector reports exactly
one conflict referencing that requirement on the statement "A WebSocket
client sends unmasked frames to the server", and reports zero conflicts on
the compliant statement "The client masks all frames before sending". -/
theorem c1_mask_must_conflict :
    (detectConflicts "A WebSocket client sends unmasked frames to the server"
        [reqClientMustMask]).map (·.requirement) = [reqClientMustMask]
  ∧ detectConflicts "The client masks all frames before sending"
        [reqClientMustMask] = [] := by
  constructor <;> decide

/-- C2: for the requirement `{level: MUST NOT, subject: server, action: "mask
any frames that it sends to the client"}`, the detector reports a conflict on
"The server masks all frames sent to the client" and none on "The server
sends unmasked data"; the send/unmasked pair is skipped because its positive
verb first occurs at index 24 > 20 of the forbidden-action text. -/
theorem c2_mask_mustnot_conflict :
    (detectConflicts "The server masks all frames sent to the client"
        [reqServerMustNotMask]).map (·.requirement) = [reqServerMustNotMask]
  ∧ detectConflicts "The server sends unmasked data" [reqServerMustNotMask] = []
  ∧ firstIndexOf (lowerChars "mask any frames that it sends to the client".data)
      "send".data = some 24
  ∧ hasPositiveAction "the server sends unmasked data"
      ⟨"send", ["not send", "never send", "block"]⟩ = true := by
  refine ⟨by decide, by decide, by decide, by decide⟩

/-- C3: conflict detection is gated on the statement subject only.  (i) If no
subject term can be extracted, `detectConflicts` returns the empty list for
every requirement list.  (ii) For a MUST/SHALL/REQUIRED requirement whose
subject matches the statement's, a semantic negation contradiction is
reported even when the statement carries no requirement keyword at all. -/
theorem c3_subject_only_gating :
    (∀ (statement : String) (reqs : List Requirement),
        extractSubject statement = none → detectConflicts statement reqs = [])
  ∧ (∀ (statement : String) (req : Requirement) (subj : String)
        (pair : NegationPair),
        extractSubject statement = some subj →
        reqSubjectOf req = some subj →
        (req.level = .must ∨ req.level = .shall ∨ req.level = .required) →
        extractRequirementLevel statement = none →
        pair ∈ NEGATION_PAIRS →
        hasNegativeAction (strLower statement) pair = true →
        hasPositiveAction (reqActionOf req) pair = true →
        detectConflicts statement [req] =
          [⟨req, "Statement action contradicts \"" ++ keywordOf req.level ++
              "\" requirement: \"" ++ reqActionOf req ++ "\"",
            none, req.level⟩]) := by
  constructor
  · intro statement reqs h
    simp only [detectConflicts, h]
  · intro statement req subj pair hsubj hreq hlvl hnolvl hmem hneg hpos
    have hcontra : actionsContradict (strLower statement) (reqActionOf req) = true := by
      simp only [actionsContradict, List.any_eq_true]
      exact ⟨pair, hmem, by rw [hneg, hpos]; simp⟩
    have hlv : (req.level = RequirementLevel.must ||
        req.level = RequirementLevel.shall ||
        req.level = RequirementLevel.required) = true := by
      rcases hlvl with h | h | h <;> simp [h]
    simp only [detectConflicts, hsubj, hnolvl, List.filterMap_cons,
      List.filterMap_nil, conflictFor, hreq, levelPairConflict, hcontra, hlv,
      ne_eq, not_true_eq_false, if_false, ite_true, ite_false]

/-- C3 witness: the gating theorem instantiated at concrete inputs: a
statement with no subject yields no conflicts, and a no-keyword statement
that negates the masking action of `reqClientMustMask` yields exactly the
semantic contradiction. -/
theorem c3_subject_only_gating_witness :
    detectConflicts "Something MUST happen" [reqClientMustMask] = []
  ∧ detectConflicts "The client sends frames without masking"
      [reqClientMustMask] =
      [⟨reqClientMustMask,
        "Statement action contradicts \"" ++ keywordOf reqClientMustMask.level ++
          "\" requirement: \"" ++ reqActionOf reqClientMustMask ++ "\"",
        none, reqClientMustMask.level⟩] :=
  ⟨c3_subject_only_gating.1 "Something MUST happen" [reqClientMustMask]
      (by decide),
   c3_subject_only_gating.2 "The client sends frames without masking"
      reqClientMustMask "client"
      ⟨"mask", ["unmask", "unmasked", "not mask", "without mask", "without masking"]⟩
      (by decide) (by decide) (Or.inl rfl) (by decide) (by decide) (by decide)
      (by decide)⟩

/-- C10: level-pair conflict detection is asymmetric.  The conflicts-with set
of each mandatory level (MUST, MUST NOT, REQUIRED, SHALL, SHALL NOT) is
empty, so the level-pair mechanism (`Check 1` of `detectConflicts`) never
reports a conflict when the statement's detected level is mandatory; yet a
MAY-level statement does receive a level-pair conflict against a MUST
requirement. -/
theorem c10_level_pair_asymmetric :
    (∀ lv ∈ ([.must, .mustNot, .required, .shall, .shallNot] :
        List RequirementLevel), conflictingLevels lv = [])
  ∧ (∀ (sl : Option RequirementLevel) (kws : List (String × Nat))
        (req : Requirement) (lv : RequirementLevel), sl = some lv →
        lv ∈ ([.must, .mustNot, .required, .shall, .shallNot] :
          List RequirementLevel) →
        levelPairConflict sl kws req = none)
  ∧ (detectConflicts "The client MAY not send a request"
        [reqClientMustSend]).map (·.reason) =
      ["Statement uses \"MAY\" but requirement uses \"MUST\""] := by
  refine ⟨by decide, ?_, by decide⟩
  intro sl kws req lv hsl hmem
  subst hsl
  fin_cases hmem <;> rfl

/-- C10 witness: the mechanism theorem applied at a concrete mandatory
statement level. -/
theorem c10_level_pair_asymmetric_witness :
    levelPairConflict (some .mustNot) [("client", 3)] reqClientMustSend = none :=
  c10_level_pair_asymmetric.2.1 (some .mustNot) [("client", 3)]
    reqClientMustSend .mustNot rfl (by decide)

/-!
## Document model (`types/index.ts`)

`Section` owns its `subsections`, so the type is a tree.  It is declared as
a mutual pair `Sec`/`SecL` (a section and a list of sections) so that every
recursion over the tree is structural and reduces in the kernel; `SecL` is
the embedding of the `Section[]` arrays of the source.
-/

/-- `CrossReference` (the `type` field keeps the source's string literals
"rfc" / "section" / ...). -/
structure CrossReference where
  target : String
  type : String
  «section» : Option String := none
  displayText : Option String := none
deriving DecidableEq, Repr

/-- `RequirementMarker`: a raw keyword occurrence with its position. -/
structure RequirementMarker where
  level : RequirementLevel
  position : Nat
deriving DecidableEq, Repr

/-- `ListItem` of a `ListBlock`. -/
structure ListItem where
  content : String
  requirements : List RequirementMarker
deriving DecidableEq, Repr

/-- `ContentBlock`: the tagged union of block kinds. -/
inductive ContentBlock where
  | text (content : String) (requirements : List RequirementMarker)
      (crossReferences : List CrossReference)
  | list (style : String) (items : List ListItem)
  | sourcecode (language : Option String) (content : String)
  | artwork (content : String)
  | table (headers : List String) (rows : List (List String))
deriving DecidableEq, Repr

mutual

inductive Sec where
  | mk (anchor : Option String) (number : Option String) (title : String)
      (content : List ContentBlock) (subsections : SecL)
deriving DecidableEq, Repr

inductive SecL where
  | nil
  | cons (head : Sec) (tail : SecL)
deriving DecidableEq, Repr

end

def Sec.anchor : Sec → Option String | .mk a _ _ _ _ => a

def Sec.number : Sec → Option String | .mk _ n _ _ _ => n

def Sec.title : Sec → String | .mk _ _ t _ _ => t

def Sec.content : Sec → List ContentBlock | .mk _ _ _ c _ => c

def Sec.subsections : Sec → SecL | .mk _ _ _ _ s => s

def SecL.ofList : List Sec → SecL
  | [] => .nil
  | s :: rest => .cons s (SecL.ofList rest)

def SecL.toList : SecL → List Sec
  | .nil => []
  | .cons s rest => s :: rest.toList

/-- Append one section at the end (the `subsections.push` of the source). -/
def SecL.concat : SecL → Sec → SecL
  | .nil, c => .cons c .nil
  | .cons s rest, c => .cons s (rest.concat c)

/-- `Definition` record. -/
structure Definition where
  term : String
  definition : String
  «section» : String
  aliases : Option (List String) := none
deriving DecidableEq, Repr

/-- Bibliographic `RFCReference` (the `type` field keeps the source's
"normative" / "informative" literals). -/
structure RFCReference where
  anchor : String
  type : String
  rfcNumber : Option Nat := none
  draftName : Option String := none
  title : String
  authors : Option (List String) := none
  date : Option String := none
  target : Option String := none
deriving DecidableEq, Repr

/-- The `references` component of a parsed document. -/
structure References where
  normative : List RFCReference
  informative : List RFCReference
deriving DecidableEq, Repr

/-- `ParsedRFC['metadata']`. -/
structure DocMetadata where
  title : String
  docName : Option String := none
  number : Option Nat := none
deriving DecidableEq, Repr

/-- `ParsedRFC`: the common document model of both parsers. -/
structure ParsedRFC where
  metadata : DocMetadata
  sections : SecL
  references : References
  definitions : List Definition
deriving DecidableEq, Repr

/-!
## Cross-reference extraction (`utils/text.ts`, `extractCrossReferences`)
-/

/-- Global scan for `/RFC\s*(\d+)/gi`: case-insensitive "RFC", optional
whitespace, a digit group; a successful match resumes after its digits, a
failed position advances by one.  Fuel (`≥` text length) makes the scan
structural. -/
def rfcRefScan : Nat → Chars → List Chars
  | 0, _ => []
  | _ + 1, [] => []
  | fuel + 1, c :: rest =>
    if ciStarts "rfc".data (c :: rest) then
      let afterKw := (c :: rest).drop 3
      let afterWs := afterKw.dropWhile Char.isWhitespace
      let digits := afterWs.takeWhile Char.isDigit
      if digits.isEmpty then rfcRefScan fuel rest
      else digits :: rfcRefScan fuel (afterWs.drop digits.length)
    else rfcRefScan fuel rest

/-- Global scan for `/[Ss]ection\s+([\d.]+)/g`: "Section" with either case
of the initial letter, mandatory whitespace, then a run of digits and
dots. -/
def sectionRefScan : Nat → Chars → List Chars
  | 0, _ => []
  | _ + 1, [] => []
  | fuel + 1, c :: rest =>
    if (c = 'S' || c = 's') && "ection".data.isPrefixOf rest then
      let afterKw := rest.drop 6
      let ws := afterKw.takeWhile Char.isWhitespace
      if ws.isEmpty then sectionRefScan fuel rest
      else
        let body := (afterKw.drop ws.length).takeWhile
          (fun ch => ch.isDigit || ch = '.')
        if body.isEmpty then sectionRefScan fuel rest
        else body :: sectionRefScan fuel ((afterKw.drop ws.length).drop body.length)
    else sectionRefScan fuel rest

/-- `extractCrossReferences`: all RFC references then all section
references, in scan order. -/
def extractCrossReferences (text : String) : List CrossReference :=
  (rfcRefScan text.data.length text.data).map
    (fun ds => { target := "RFC" ++ ds.asString, type := "rfc" }) ++
  (sectionRefScan text.data.length text.data).map
    (fun m => { target := m.asString, type := "section",
                «section» := some m.asString })

/-!
## Plain-text parser (`services/rfc-text-parser.ts`, current version with
the `isValidSectionHeader` heuristic)
-/

/-- Index of the last newline character of a list, if any. -/
def lastNlIdx (cs : Chars) : Option Nat :=
  (cs.foldl (fun (acc : Nat × Option Nat) c =>
    (acc.1 + 1, if c = '\n' then some acc.1 else acc.2)) (0, none)).2

/-- Paragraph splitting on `/\n\s*\n/`: a separator starts at a newline
whose following whitespace run contains another newline, and extends to the
last newline of that run (the greedy `\s*` backs off to leave the final
`\n`). -/
def splitBlankFuel : Nat → Chars → Chars → List Chars
  | 0, acc, _ => [acc.reverse]
  | _ + 1, acc, [] => [acc.reverse]
  | fuel + 1, acc, c :: rest =>
    if c = '\n' then
      match lastNlIdx (rest.takeWhile Char.isWhitespace) with
      | some k => acc.reverse :: splitBlankFuel fuel [] (rest.drop (k + 1))
      | none => splitBlankFuel fuel (c :: acc) rest
    else splitBlankFuel fuel (c :: acc) rest

def splitBlank (cs : Chars) : List Chars := splitBlankFuel cs.length [] cs

/-- Markers of a text as `RequirementMarker` records. -/
def markersOf (text : String) : List RequirementMarker :=
  (scanMarkers text).map (fun m => ⟨m.1, m.2⟩)

/-- `createTextBlocks`: blank-line paragraphs, each trimmed and scanned for
requirement markers and cross-references. -/
def createTextBlocks (text : String) : List ContentBlock :=
  ((splitBlank text.data).filter (fun p => !(trimChars p).isEmpty)).map
    fun para =>
      let trimmed := (trimChars para).asString
      ContentBlock.text trimmed (markersOf trimmed)
        (extractCrossReferences trimmed)

/-- The `(?:\.\d+)*` tail of `SECTION_HEADER_PATTERN`: consume maximal
dot-digit groups, returning the consumed part and the remainder. -/
def numTailRec : Nat → Chars → Chars × Chars
  | 0, cs => ([], cs)
  | fuel + 1, cs =>
    match cs with
    | '.' :: rest =>
      let ds := rest.takeWhile Char.isDigit
      if ds.isEmpty then ([], cs)
      else
        let (more, left) := numTailRec fuel (rest.drop ds.length)
        ('.' :: ds ++ more, left)
    | _ => ([], cs)

/-- `SECTION_HEADER_PATTERN = /^(\d+(?:\.\d+)*\.?)\s+(.+)$/` applied to a
whole line: leading digits, dot-digit groups, an optional trailing dot that
must be followed by whitespace, mandatory whitespace, then a non-empty
title free of line terminators (JS `.` does not match them).  Shorter
backtracking splits of the number part cannot succeed because they leave a
digit or dot where whitespace is required, so the maximal parse is the only
candidate. -/
def headerMatch (line : Chars) : Option (Chars × Chars) :=
  let d1 := line.takeWhile Char.isDigit
  if d1.isEmpty then none
  else
    let r0 := line.drop d1.length
    let (tail, r1) := numTailRec r0.length r0
    let (group1, r2) :=
      match r1 with
      | '.' :: r => (d1 ++ tail ++ ['.'], r)
      | _ => (d1 ++ tail, r1)
    let ws := r2.takeWhile Char.isWhitespace
    if ws.isEmpty then none
    else
      let title := r2.drop ws.length
      if title.isEmpty || title.any (fun c => c = '\n' || c = '\r') then none
      else some (group1, title)

/-- `match[1].replace(/\.$/, '')`: strip one trailing dot. -/
def stripTrailingDot (cs : Chars) : Chars :=
  match cs.getLast? with
  | some '.' => cs.dropLast
  | _ => cs

/-- The recognised section-title keywords of `isValidSectionHeader`. -/
def SECTION_TITLE_KEYWORDS : List String :=
  ["introduction", "overview", "background", "requirements",
   "specification", "protocol", "format", "security", "considerations",
   "references", "acknowledgments", "appendix", "terminology",
   "definitions", "abstract", "scope", "normative", "informative",
   "implementation", "examples", "error", "status", "codes", "messages",
   "operations"]

/-- `isValidSectionHeader`: the false-positive rejection heuristic.  Reject
dotted depth `> 5`; reject a leading number component above 99 (status
codes); reject titles shorter than 3; reject short lower-case titles;
accept on a section keyword, an upper-case start with length `≥ 5`, or
dotted depth `≥ 2`. -/
def isValidSectionHeader (sectionNum title : String) : Bool :=
  let numParts := splitDots sectionNum.data
  let depth := numParts.length
  if depth > 5 then false
  else if (match tsParseInt (numParts.headD []) with
           | some n => decide (n > 99)
           | none => false) then false
  else
    let trimmedTitle := trimChars title.data
    if trimmedTitle.length < 3 then false
    else if (match trimmedTitle with
             | c :: _ => 'a' ≤ c && c ≤ 'z'
             | [] => false) && trimmedTitle.length < 20 then false
    else if SECTION_TITLE_KEYWORDS.any
        (fun kw => containsSub (lowerChars trimmedTitle) kw.data) then true
    else if (match trimmedTitle with
             | c :: _ => 'A' ≤ c && c ≤ 'Z'
             | [] => false) && trimmedTitle.length ≥ 5 then true
    else decide (depth ≥ 2)

/-- Fold state of `extractTextSections`: finished flat sections, the open
section header (number, title), and its accumulated raw content lines. -/
structure TextSecState where
  sections : List Sec
  current : Option (String × String)
  currentContent : List String

/-- Close the open section, turning its lines into content blocks. -/
def flushSection (st : TextSecState) : List Sec :=
  match st.current with
  | some (num, title) =>
    st.sections ++ [Sec.mk none (some num) title
      (createTextBlocks (String.intercalate "\n" st.currentContent)) .nil]
  | none => st.sections

/-- One line of the `extractTextSections` loop: a validated header starts a
new section; a rejected header line or an ordinary line is folded into the
open section's body (and dropped before any section is open). -/
def extractTextSectionsStep (st : TextSecState) (line : String) : TextSecState :=
  let trimmed := trimChars line.data
  match headerMatch trimmed with
  | some (num, title) =>
    let sectionNum := (stripTrailingDot num).asString
    let titleS := title.asString
    if isValidSectionHeader sectionNum titleS then
      { sections := flushSection st,
        current := some (sectionNum, titleS), currentContent := [] }
    else
      match st.current with
      | some _ => { st with currentContent := st.currentContent ++ [line] }
      | none => st
  | none =>
    match st.current with
    | some _ => { st with currentContent := st.currentContent ++ [line] }
    | none => st

/-- Dotted depth of a section: `section.number?.split('.').length || 1`. -/
def secNumDepth (s : Sec) : Nat :=
  match s.number with
  | some n => (splitDots n.data).length
  | none => 1

/-- Append a finished child to a parent's subsections. -/
def secWithChild (p c : Sec) : Sec :=
  match p with
  | .mk a n t ct subs => .mk a n t ct (subs.concat c)

/-- Pop every stack entry with depth `≥ d`.  The source attaches a section
to its parent by reference when it is pushed and mutates it afterwards; the
functional equivalent attaches a section to the new stack top (or to the
root list) at the moment it is popped, when it is complete.  Fuel (`≥`
stack length) keeps the recursion structural. -/
def orgPopFuel : Nat → Nat → List (Sec × Nat) → List Sec →
    List (Sec × Nat) × List Sec
  | 0, _, st, root => (st, root)
  | fuel + 1, d, st, root =>
    match st with
    | [] => ([], root)
    | (p, pd) :: tl =>
      if pd ≥ d then
        match tl with
        | [] => orgPopFuel fuel d [] (root ++ [p])
        | (q, qd) :: tl2 => orgPopFuel fuel d ((secWithChild q p, qd) :: tl2) root
      else ((p, pd) :: tl, root)

/-- One iteration of `organizeSections`: pop to the right parent, then push
the new section with its dotted depth. -/
def organizeStep (acc : List (Sec × Nat) × List Sec) (s : Sec) :
    List (Sec × Nat) × List Sec :=
  let d := secNumDepth s
  let (st, root) := orgPopFuel acc.1.length d acc.1 acc.2
  ((s, d) :: st, root)

/-- `organizeSections`: stack-based hierarchy construction over the flat
heading stream; the final pop with depth 0 flushes the remaining stack. -/
def organizeSections (flat : List Sec) : SecL :=
  let (st, root) := flat.foldl organizeStep ([], [])
  SecL.ofList (orgPopFuel st.length 0 st root).2

/-- `extractTextSections`: line loop, final flush, then hierarchy
construction. -/
def extractTextSections (lines : List String) : SecL :=
  organizeSections (flushSection (lines.foldl extractTextSectionsStep ⟨[], none, []⟩))

/-- `extractTextMetadata`: first of the first 30 lines that looks like a
title (length in (10, 100), no colon, no leading digit, not the
"Request for Comments" boilerplate); otherwise the placeholder
`RFC <n>`. -/
def extractTextMetadata (lines : List String) (rfcNumber : Nat) : DocMetadata :=
  let title := ((lines.take 30).findSome? fun l =>
    let line := trimChars l.data
    if decide (line.length > 10) && decide (line.length < 100) &&
        !containsSub line [':'] &&
        !(match line with | c :: _ => c.isDigit | [] => false) &&
        !containsSub (lowerChars line) "request for comments".data
    then some line.asString else none).getD ("RFC " ++ toString rfcNumber)
  { title := title, number := some rfcNumber }

/-- `extractTextReferences`: RFC-number scan over the whole text,
deduplicated, self-reference excluded, all informative. -/
def extractTextReferences (text : String) (currentRfcNumber : Nat) :
    References :=
  let nums := ((rfcRefScan text.data.length text.data).map
      (fun ds => (tsParseInt ds).getD 0)).foldl
    (fun (acc : List Nat) n =>
      if n ≠ currentRfcNumber && !acc.contains n then acc ++ [n] else acc) []
  { normative := [],
    informative := nums.map fun n =>
      { anchor := "RFC" ++ toString n, type := "informative",
        rfcNumber := some n, title := "RFC " ++ toString n } }

/-- `[A-Za-z0-9\s-]`, the interior class of the definition pattern. -/
def isDefClass (c : Char) : Bool :=
  c.isAlphanum || c.isWhitespace || c = '-'

/-- The greedy `\s+(.+)$` split after the `-`/`:` separator: the longest
admissible whitespace run such that the rest is non-empty and free of line
terminators. -/
def defWsSplit : Nat → Chars → Option Chars
  | 0, _ => none
  | k + 1, r2 =>
    let rest := r2.drop (k + 1)
    if !rest.isEmpty && rest.all (fun ch => ch ≠ '\n' && ch ≠ '\r') then
      some rest
    else defWsSplit k r2

/-- The `\s*[-:]\s+(.+)$` tail of the definition pattern. -/
def defTail (r : Chars) : Option Chars :=
  match r.dropWhile Char.isWhitespace with
  | c :: r2 =>
    if c = '-' || c = ':' then
      defWsSplit (r2.takeWhile Char.isWhitespace).length r2
    else none
  | [] => none

/-- Backtracking over the term group `([A-Za-z][A-Za-z0-9\s-]*[A-Za-z0-9])`:
try the longest candidate first (greedy `*`), requiring the last character
to be alphanumeric and the tail pattern to succeed. -/
def tryDefGroup1 : Nat → Chars → Option (Chars × Chars)
  | 0, _ => none
  | j + 1, s =>
    if decide (j + 1 ≥ 2) &&
        (match s.get? j with | some c => c.isAlphanum | none => false) then
      match defTail (s.drop (j + 1)) with
      | some rest => some (s.take (j + 1), rest)
      | none => tryDefGroup1 j s
    else tryDefGroup1 j s

/-- `defPattern = /^\s*([A-Za-z][A-Za-z0-9\s-]*[A-Za-z0-9])\s*[-:]\s+(.+)$/`
applied to one (already trimmed) line. -/
def defLineMatch (line : Chars) : Option (Chars × Chars) :=
  let s := line.dropWhile Char.isWhitespace
  match s with
  | c :: rest =>
    if c.isAlpha then
      tryDefGroup1 (1 + (rest.takeWhile isDefClass).length) s
    else none
  | [] => none

/-- `extractTextDefinitions`: track the current section via the raw header
pattern, collect `term - definition` / `term: definition` lines passing the
minimum-length filters. -/
def extractTextDefinitions (lines : List String) : List Definition :=
  (lines.foldl (fun (acc : List Definition × String) line =>
    let trimmed := trimChars line.data
    match headerMatch trimmed with
    | some (num, _) => (acc.1, (stripTrailingDot num).asString)
    | none =>
      match defLineMatch trimmed with
      | some (g1, g2) =>
        let term := (trimChars g1).asString
        let definition := (trimChars g2).asString
        if term.length ≥ 2 && definition.length ≥ 10 then
          (acc.1 ++ [{ term := term, definition := definition,
                       «section» := acc.2 }], acc.2)
        else acc
      | none => acc) ([], "")).1

/-- `text.split('\n')`: split at every newline, keeping empty pieces. -/
def splitNlGo : Chars → Chars → List String
  | [], acc => [acc.reverse.asString]
  | c :: rest, acc =>
    if c = '\n' then acc.reverse.asString :: splitNlGo rest []
    else splitNlGo rest (c :: acc)

def splitNl (text : String) : List String :=
  splitNlGo text.data []

/-- `parseRFCText`: the total plain-text parsing pipeline. -/
def parseRFCText (text : String) (rfcNumber : Nat) : ParsedRFC :=
  let lines := splitNl text
  { metadata := extractTextMetadata lines rfcNumber,
    sections := extractTextSections lines,
    references := extractTextReferences text rfcNumber,
    definitions := extractTextDefinitions lines }

/-!
## Hierarchy predicates for the section forest
-/

/-!
`depthEqFrom` is the hierarchy property exactly as the spec states it: a
node at nesting depth `k` (roots at `k = 1`) has dotted-number depth `k`.
-/

mutual

def depthEqFrom : Nat → Sec → Bool
  | k, .mk a n t c subs =>
    (secNumDepth (.mk a n t c subs) == k) && depthEqFromL (k + 1) subs

def depthEqFromL : Nat → SecL → Bool
  | _, .nil => true
  | k, .cons s rest => depthEqFrom k s && depthEqFromL k rest

end

/-- "Every node's dotted `number` depth equals its nesting depth from a
root" over a whole forest. -/
def hierarchyDepthEq (forest : SecL) : Bool := depthEqFromL 1 forest

/-!
`childMono` is the invariant the hierarchy construction actually
guarantees: every subsection's dotted depth strictly exceeds its parent's.
-/

mutual

def childMono : Sec → Bool
  | .mk a n t c subs => childMonoL (secNumDepth (.mk a n t c subs)) subs

def childMonoL : Nat → SecL → Bool
  | _, .nil => true
  | d, .cons s rest =>
    decide (d < secNumDepth s) && childMono s && childMonoL d rest

end

/-!
`depthLeFrom` is the weak form: a node at nesting depth `k` has dotted
depth at least `k`.
-/

mutual

def depthLeFrom : Nat → Sec → Bool
  | k, .mk a n t c subs =>
    decide (k ≤ secNumDepth (.mk a n t c subs)) && depthLeFromL (k + 1) subs

def depthLeFromL : Nat → SecL → Bool
  | _, .nil => true
  | k, .cons s rest => depthLeFrom k s && depthLeFromL k rest

end

/-- Does some text block of the section contain `needle`? -/
def secContainsText (s : Sec) (needle : String) : Bool :=
  s.content.any fun b =>
    match b with
    | .text c _ _ => containsSub c.data needle.data
    | _ => false

/-- The numbered-list sample of the section-header false-positive claim:
"1001 Connection refused" appears inside section 1's body. -/
def statusCodeLines : List String :=
  ["1.  Error Handling", "",
   "   The following status codes are used:", "",
   "   1001 Connection refused", "   1002 Protocol error"]

/-- C7: a header-shaped line whose leading number component exceeds 99 is
rejected by `isValidSectionHeader` for every title, and in the concrete
numbered-list sample the line "1001 Connection refused" does not open a new
section but is folded into the open section's body. -/
theorem c7_high_number_header_rejected :
    (∀ (num title : String) (n : Nat),
        tsParseInt ((splitDots num.data).headD []) = some n → n > 99 →
        isValidSectionHeader num title = false)
  ∧ (extractTextSections statusCodeLines).toList.map Sec.number = [some "1"]
  ∧ (extractTextSections statusCodeLines).toList.all
      (fun s => secContainsText s "1001 Connection refused") = true := by
  refine ⟨?_, by decide, by decide⟩
  intro num title n hparse hgt
  simp only [isValidSectionHeader, hparse]
  simp [hgt]

/-- C7 witness: the rejection theorem applied to the concrete line
"1001 Connection refused". -/
theorem c7_high_number_header_rejected_witness :
    tsParseInt ((splitDots "1001".data).headD []) = some 1001
  ∧ 1001 > 99
  ∧ isValidSectionHeader "1001" "Connection refused" = false :=
  ⟨by decide, by decide,
   c7_high_number_header_rejected.1 "1001" "Connection refused" 1001
     (by decide) (by decide)⟩

/-- The two-heading stream that skips a level: "1" directly followed by
"1.1.1". -/
def skipLevelFlat : List Sec :=
  [Sec.mk none (some "1") "Intro" [] .nil,
   Sec.mk none (some "1.1.1") "Deep" [] .nil]

/-- C5 counterexample: on a heading stream that skips a level,
`organizeSections` attaches "1.1.1" directly below "1", so its nesting
depth is 2 while its dotted depth is 3 — the claimed depth-equality
invariant is false for the constructed forest. -/
theorem c5_depth_equality_fails :
    hierarchyDepthEq (organizeSections skipLevelFlat) = false
  ∧ (organizeSections skipLevelFlat).toList.map
      (fun s => (s.number, s.subsections.toList.map Sec.number)) =
      [(some "1", [some "1.1.1"])] := by
  exact ⟨by decide, by decide⟩

/-!
## Invariant proof for `organizeSections`
-/

theorem splitDots_length_pos : ∀ (cs : Chars), 1 ≤ (splitDots cs).length := by
  intro cs
  unfold splitDots
  split
  · simp
  · simp
  · split <;> simp

theorem secNumDepth_pos (s : Sec) : 1 ≤ secNumDepth s := by
  unfold secNumDepth
  split
  · exact splitDots_length_pos _
  · exact le_rfl

theorem secNumDepth_withChild (p c : Sec) :
    secNumDepth (secWithChild p c) = secNumDepth p := by
  cases p
  rfl

theorem childMonoL_concat : ∀ (l : SecL) (d : Nat) (c : Sec),
    childMonoL d (l.concat c) =
      (childMonoL d l && (decide (d < secNumDepth c) && childMono c))
  | .nil, d, c => by
    simp [SecL.concat, childMonoL]
  | .cons s rest, d, c => by
    simp [SecL.concat, childMonoL, childMonoL_concat rest d c, Bool.and_assoc]

theorem childMono_withChild (p c : Sec) (hp : childMono p = true)
    (hc : childMono c = true) (hd : secNumDepth p < secNumDepth c) :
    childMono (secWithChild p c) = true := by
  cases p with
  | mk a n t ct subs =>
    simp only [secWithChild, childMono, childMonoL_concat]
    simp only [childMono] at hp
    have hdep : secNumDepth (Sec.mk a n t ct (subs.concat c)) =
        secNumDepth (Sec.mk a n t ct subs) := rfl
    rw [hdep, hp]
    simp only [Bool.true_and, Bool.and_eq_true, decide_eq_true_eq]
    exact ⟨hd, hc⟩

/-- Per-entry stack invariant: each stacked section satisfies the
child-monotonicity invariant and is stored with its own dotted depth. -/
def StackEntriesOk (st : List (Sec × Nat)) : Prop :=
  ∀ p ∈ st, childMono p.1 = true ∧ secNumDepth p.1 = p.2

/-- Full stack invariant: good entries with strictly decreasing depths from
top to bottom. -/
def StackOk (st : List (Sec × Nat)) : Prop :=
  StackEntriesOk st ∧ List.Chain' (fun a b => b.2 < a.2) st

/-- Root invariant: finished root sections satisfy the invariant. -/
def RootOk (root : List Sec) : Prop := ∀ r ∈ root, childMono r = true

theorem chain_lt_head : ∀ (p : Sec × Nat) (tl : List (Sec × Nat)),
    List.Chain' (fun a b => b.2 < a.2) (p :: tl) → ∀ q ∈ tl, q.2 < p.2 := by
  intro p tl
  induction tl generalizing p with
  | nil => intro _ q hq; exact absurd hq (List.not_mem_nil q)
  | cons r tl2 ih =>
    intro hch q hq
    have h1 := (List.chain'_cons.mp hch).1
    have h2 := (List.chain'_cons.mp hch).2
    rcases List.mem_cons.mp hq with rfl | hq2
    · exact h1
    · exact lt_trans (ih r h2 q hq2) h1

theorem orgPopFuel_inv : ∀ (fuel d : Nat) (st : List (Sec × Nat))
    (root : List Sec), st.length ≤ fuel → StackOk st → RootOk root →
    StackOk (orgPopFuel fuel d st root).1 ∧
    RootOk (orgPopFuel fuel d st root).2 ∧
    ∀ p ∈ (orgPopFuel fuel d st root).1, p.2 < d := by
  intro fuel
  induction fuel with
  | zero =>
    intro d st root hlen hst hroot
    have hnil : st = [] := List.eq_nil_of_length_eq_zero (Nat.le_zero.mp hlen)
    subst hnil
    simp only [orgPopFuel]
    exact ⟨hst, hroot, by intro p hp; exact absurd hp (List.not_mem_nil p)⟩
  | succ fuel ih =>
    intro d st root hlen hst hroot
    match st with
    | [] =>
      simp only [orgPopFuel]
      refine ⟨⟨?_, List.chain'_nil⟩, hroot, ?_⟩
      · intro p hp; exact absurd hp (List.not_mem_nil p)
      · intro p hp; exact absurd hp (List.not_mem_nil p)
    | (p, pd) :: tl =>
      by_cases hpd : pd ≥ d
      · match tl with
        | [] =>
          have heq : orgPopFuel (fuel + 1) d [(p, pd)] root =
              orgPopFuel fuel d [] (root ++ [p]) := by
            simp [orgPopFuel, hpd]
          rw [heq]
          apply ih d [] (root ++ [p]) (by simp)
          · exact ⟨fun q hq => absurd hq (List.not_mem_nil q), List.chain'_nil⟩
          · intro r hr
            rcases List.mem_append.mp hr with hr1 | hr2
            · exact hroot r hr1
            · rw [List.mem_singleton.mp hr2]
              exact (hst.1 (p, pd) (List.mem_cons_self _ _)).1
        | (q, qd) :: tl2 =>
          have heq : orgPopFuel (fuel + 1) d ((p, pd) :: (q, qd) :: tl2) root =
              orgPopFuel fuel d ((secWithChild q p, qd) :: tl2) root := by
            simp [orgPopFuel, hpd]
          rw [heq]
          have hentp := hst.1 (p, pd) (List.mem_cons_self _ _)
          have hentq := hst.1 (q, qd) (List.mem_cons_of_mem _ (List.mem_cons_self _ _))
          have hqd : qd < pd := (List.chain'_cons.mp hst.2).1
          have hmono : childMono (secWithChild q p) = true := by
            apply childMono_withChild q p hentq.1 hentp.1
            rw [hentq.2, hentp.2]
            exact hqd
          apply ih d ((secWithChild q p, qd) :: tl2) root
          · have := hlen
            simpa using Nat.le_of_succ_le_succ (by simpa using hlen)
          · constructor
            · intro r hr
              rcases List.mem_cons.mp hr with rfl | hr2
              · exact ⟨hmono, by rw [secNumDepth_withChild]; exact hentq.2⟩
              · exact hst.1 r (List.mem_cons_of_mem _ (List.mem_cons_of_mem _ hr2))
            · have hch := (List.chain'_cons.mp hst.2).2
              cases tl2 with
              | nil => exact List.chain'_singleton _
              | cons w tl3 =>
                exact List.chain'_cons.mpr
                  ⟨(List.chain'_cons.mp hch).1, (List.chain'_cons.mp hch).2⟩
          · exact hroot
      · have heq : orgPopFuel (fuel + 1) d ((p, pd) :: tl) root =
            ((p, pd) :: tl, root) := by
          simp [orgPopFuel, hpd]
        rw [heq]
        refine ⟨hst, hroot, ?_⟩
        intro q hq
        rcases List.mem_cons.mp hq with rfl | hq2
        · exact Nat.lt_of_not_le hpd
        · exact lt_trans (chain_lt_head (p, pd) tl hst.2 q hq2)
            (Nat.lt_of_not_le hpd)

theorem organizeStep_inv (acc : List (Sec × Nat) × List Sec) (s : Sec)
    (hst : StackOk acc.1) (hroot : RootOk acc.2) (hs : childMono s = true) :
    StackOk (organizeStep acc s).1 ∧ RootOk (organizeStep acc s).2 := by
  obtain ⟨st, root⟩ := acc
  have h := orgPopFuel_inv st.length (secNumDepth s) st root le_rfl hst hroot
  simp only [organizeStep]
  constructor
  · constructor
    · intro p hp
      rcases List.mem_cons.mp hp with rfl | hp2
      · exact ⟨hs, rfl⟩
      · exact h.1.1 p hp2
    · apply List.chain'_cons'.mpr
      refine ⟨?_, h.1.2⟩
      intro q hq
      exact h.2.2 q (List.mem_of_mem_head? hq)
  · exact h.2.1

theorem organize_fold_inv : ∀ (flat : List Sec)
    (acc : List (Sec × Nat) × List Sec), StackOk acc.1 → RootOk acc.2 →
    (∀ s ∈ flat, childMono s = true) →
    StackOk (flat.foldl organizeStep acc).1 ∧
    RootOk (flat.foldl organizeStep acc).2 := by
  intro flat
  induction flat with
  | nil => intro acc hst hroot _; exact ⟨hst, hroot⟩
  | cons s rest ih =>
    intro acc hst hroot hall
    have hstep := organizeStep_inv acc s hst hroot
      (hall s (List.mem_cons_self _ _))
    exact ih (organizeStep acc s) hstep.1 hstep.2
      (fun t ht => hall t (List.mem_cons_of_mem _ ht))

theorem SecL.toList_ofList : ∀ (l : List Sec), (SecL.ofList l).toList = l
  | [] => rfl
  | s :: rest => by simp [SecL.ofList, SecL.toList, SecL.toList_ofList rest]

mutual

theorem childMono_depthLe : ∀ (s : Sec) (k : Nat), childMono s = true →
    k ≤ secNumDepth s → depthLeFrom k s = true
  | .mk a n t c subs, k, hm, hk => by
    simp only [childMono] at hm
    simp only [depthLeFrom, Bool.and_eq_true, decide_eq_true_eq]
    exact ⟨hk, childMonoL_depthLe subs (secNumDepth (.mk a n t c subs)) k hm hk⟩

theorem childMonoL_depthLe : ∀ (l : SecL) (d k : Nat), childMonoL d l = true →
    k ≤ d → depthLeFromL (k + 1) l = true
  | .nil, _, _, _, _ => rfl
  | .cons s rest, d, k, hm, hk => by
    simp only [childMonoL, Bool.and_eq_true, decide_eq_true_eq] at hm
    simp only [depthLeFromL, Bool.and_eq_true]
    refine ⟨childMono_depthLe s (k + 1) hm.1.2 ?_, childMonoL_depthLe rest d k hm.2 hk⟩
    exact Nat.succ_le_of_lt (Nat.lt_of_le_of_lt hk hm.1.1)

end

/-- C5 amended: for every flat heading stream of sections that individually
satisfy the invariant (as the text parser's candidate sections do — their
subsection lists are empty), the forest built by `organizeSections` makes
every subsection's dotted depth strictly exceed its parent's; consequently
every node's nesting depth from a root is at most its dotted depth.
Equality of the two depths (the original claim) fails on level-skipping
streams, see the counterexample. -/
theorem c5_organize_sections_depth_monotone (flat : List Sec)
    (h : ∀ s ∈ flat, childMono s = true) :
    (∀ r ∈ (organizeSections flat).toList, childMono r = true)
  ∧ (∀ r ∈ (organizeSections flat).toList, depthLeFrom 1 r = true) := by
  have hfold := organize_fold_inv flat ([], [])
    ⟨fun p hp => absurd hp (List.not_mem_nil p), List.chain'_nil⟩
    (fun r hr => absurd hr (List.not_mem_nil r)) h
  have hfinal := orgPopFuel_inv (flat.foldl organizeStep ([], [])).1.length 0
    (flat.foldl organizeStep ([], [])).1 (flat.foldl organizeStep ([], [])).2
    le_rfl hfold.1 hfold.2
  have hmono : ∀ r ∈ (organizeSections flat).toList, childMono r = true := by
    intro r hr
    apply hfinal.2.1 r
    simpa [organizeSections, SecL.toList_ofList] using hr
  refine ⟨hmono, fun r hr => ?_⟩
  exact childMono_depthLe r 1 (hmono r hr) (secNumDepth_pos r)

/-- C5 amended-theorem witness: the invariant theorem applied to the
level-skipping stream (whose input sections are leaves, hence trivially
invariant). -/
theorem c5_organize_sections_depth_monotone_witness :
    (∀ r ∈ (organizeSections skipLevelFlat).toList, childMono r = true)
  ∧ (∀ r ∈ (organizeSections skipLevelFlat).toList, depthLeFrom 1 r = true) :=
  c5_organize_sections_depth_monotone skipLevelFlat (by decide)

/-!
## Sentence extraction (`utils/text.ts`, `extractSentence`)
-/

/-- The stop condition of the backward scan: the two characters at
`start - 1` and `start` match `/[.!?]\s/`. -/
def sentStartCond (text : Chars) (start : Nat) : Bool :=
  match text.get? (start - 1), text.get? start with
  | some c1, some c2 =>
    (c1 = '.' || c1 = '!' || c1 = '?') && c2.isWhitespace
  | _, _ => false

/-- Scan backward from the keyword position to the sentence start. -/
def sentStart (text : Chars) : Nat → Nat
  | 0 => 0
  | st + 1 => if sentStartCond text (st + 1) then st + 1 else sentStart text st

/-- Scan forward from the keyword position to the next `[.!?]`. -/
def sentEndFuel : Nat → Chars → Nat → Nat
  | 0, _, e => e
  | fuel + 1, text, e =>
    match text.get? e with
    | some c =>
      if c = '.' || c = '!' || c = '?' then e else sentEndFuel fuel text (e + 1)
    | none => e

/-- `extractSentence`: the sentence around a keyword position,
`text.substring(start, end + 1).trim()`. -/
def extractSentence (text : String) (position : Nat) : String :=
  let cs := text.data
  let start := sentStart cs position
  let e := sentEndFuel cs.length cs position
  (trimChars ((cs.take (e + 1)).drop start)).asString

/-!
## Requirement component parsing
(`parseRequirementComponents` of the requirement extractor)
-/

/-- Does `(?:MUST|SHALL|SHOULD|MAY)` (case-insensitive, no boundary) match
at the start of `r`? -/
def kwStartsAt (r : Chars) : Bool :=
  ciStarts "must".data r || ciStarts "shall".data r ||
  ciStarts "should".data r || ciStarts "may".data r

/-- The group `(\w+(?:\s+\w+)?)\s+(?:MUST|SHALL|SHOULD|MAY)` at the start of
`s`: a word, optionally whitespace and a second word (greedy, tried first),
then whitespace and a keyword.  `\w+`/`\s+` runs are forced maximal because
the classes are disjoint from what follows. -/
def subjTry (s : Chars) : Option Chars :=
  let w1 := s.takeWhile isWordChar
  if w1.isEmpty then none
  else
    let r1 := s.drop w1.length
    let sp := r1.takeWhile Char.isWhitespace
    if sp.isEmpty then none
    else
      let r2 := r1.drop sp.length
      let w2 := r2.takeWhile isWordChar
      let tryTwoWords : Option Chars :=
        if w2.isEmpty then none
        else
          let r3 := r2.drop w2.length
          let sp2 := r3.takeWhile Char.isWhitespace
          if sp2.isEmpty then none
          else if kwStartsAt (r3.drop sp2.length) then some (w1 ++ sp ++ w2)
          else none
      match tryTwoWords with
      | some g => some g
      | none => if kwStartsAt r2 then some w1 else none

/-- `^(?:The\s+)?(\w+(?:\s+\w+)?)\s+(?:MUST|SHALL|SHOULD|MAY)/i`: the
optional "The" prefix is tried first, as the regex engine does. -/
def subjectMatch (text : Chars) : Option Chars :=
  let withThe : Option Chars :=
    if ciStarts "the".data text then
      let r := text.drop 3
      let sp := r.takeWhile Char.isWhitespace
      if sp.isEmpty then none else subjTry (r.drop sp.length)
    else none
  match withThe with
  | some g => some g
  | none => subjTry text

/-- Keywords of the condition pattern, in alternation order. -/
def condKeywords : List String := ["if", "when", "unless", "where", "in case"]

/-- Keywords of the exception pattern, in alternation order. -/
def exceptKeywords : List String := ["unless", "except", "excluding"]

/-- One position of `\b(kw1|kw2|...)\s+([^,.]+)`: first keyword matching
case-insensitively, then mandatory whitespace, then a non-empty run free of
commas and periods (greedy, forced maximal). -/
def clauseAt (kws : List String) (r : Chars) : Option Chars :=
  kws.findSome? fun kw =>
    if ciStarts kw.data r then
      let after := r.drop kw.length
      let sp := after.takeWhile Char.isWhitespace
      if sp.isEmpty then none
      else
        let body := (after.drop sp.length).takeWhile
          (fun c => c ≠ ',' && c ≠ '.')
        if body.isEmpty then none else some body
    else none

/-- Leftmost scan for the clause pattern, honouring the leading `\b` (the
previous character, when any, must not be a word character). -/
def clauseScan (kws : List String) : Chars → Option Char → Option Chars
  | [], _ => none
  | c :: rest, prev =>
    let boundary := match prev with
      | some pc => !isWordChar pc
      | none => true
    match (if boundary then clauseAt kws (c :: rest) else none) with
    | some body => some body
    | none => clauseScan kws rest (some c)

/-- The lazy `(.+?)(?:\.|,|$)` capture: the minimal non-empty prefix of
characters matchable by `.` (JS `.` excludes line terminators) that is
followed by `'.'`, `','` or the end of the string. -/
def lazyDotGo (acc : Chars) : Chars → Option Chars
  | [] => some acc.reverse
  | c :: rest =>
    if c = '.' || c = ',' then some acc.reverse
    else if c = '\n' || c = '\r' then none
    else lazyDotGo (c :: acc) rest

def lazyDotCapture (r : Chars) : Option Chars :=
  match r with
  | [] => none
  | c :: rest =>
    if c = '\n' || c = '\r' then none
    else lazyDotGo [c] rest

/-- One position of `` `${level}\s+(.+?)(?:\.|,|$)` ``: the level keyword
(case-insensitive, no word boundary), mandatory whitespace, then the lazy
capture. -/
def actionAt (kw : Chars) (r : Chars) : Option Chars :=
  if ciStarts kw r then
    let after := r.drop kw.length
    let sp := after.takeWhile Char.isWhitespace
    if sp.isEmpty then none
    else lazyDotCapture (after.drop sp.length)
  else none

/-- Leftmost scan for the action pattern. -/
def actionScan (kw : Chars) : Chars → Option Chars
  | [] => none
  | c :: rest =>
    match actionAt kw (c :: rest) with
    | some b => some b
    | none => actionScan kw rest

/-- The optional subject/condition/exception/action components of a
requirement sentence (`Partial<Requirement>` in the source). -/
structure ReqComponents where
  subject : Option String := none
  condition : Option String := none
  exception : Option String := none
  action : Option String := none
deriving DecidableEq, Repr

/-- `parseRequirementComponents`: the four heuristic extractions. -/
def parseRequirementComponents (text : String) (level : RequirementLevel) :
    ReqComponents :=
  { subject := (subjectMatch text.data).map (fun g => (lowerChars g).asString),
    condition := (clauseScan condKeywords text.data none).map
      (fun b => (trimChars b).asString),
    exception := (clauseScan exceptKeywords text.data none).map
      (fun b => (trimChars b).asString),
    action := (actionScan (lowerChars (keywordOf level).data) text.data).map
      (fun b => (trimChars b).asString) }

/-!
## Requirement extractor
(`utils/requirement-extractor.ts` as present in the repository — the
`extractRequirementsFromSections` whose section filter is a raw
`startsWith` on the section id)
-/

/-- `RequirementFilter` of the extractor. -/
structure RequirementFilter where
  «section» : Option String := none
  level : Option RequirementLevel := none

/-- JS `a || b` on an optional string (empty string is falsy). -/
def strOr (a : Option String) (b : String) : String :=
  match a with
  | some s => if s = "" then b else s
  | none => b

/-- JS `String.prototype.startsWith`. -/
def startsWithS (s pre : String) : Bool := pre.data.isPrefixOf s.data

/-- Does the level filter exclude this marker? -/
def levelExcluded (filter : RequirementFilter) (lv : RequirementLevel) : Bool :=
  match filter.level with
  | some flv => lv ≠ flv
  | none => false

/-- Build one extracted requirement record. -/
def mkRequirement (sectionId title fullContext text : String)
    (lv : RequirementLevel) (idx : Nat) (comp : ReqComponents) : Requirement :=
  { id := "R-" ++ sectionId ++ "-" ++ toString idx,
    level := lv, text := text,
    subject := comp.subject, action := comp.action,
    condition := comp.condition, exception := comp.exception,
    «section» := sectionId, sectionTitle := title,
    fullContext := fullContext }

/-- The per-block body of the extractor loop: text blocks contribute the
surrounding sentence of each marker, list items contribute their trimmed
content.  The accumulator threads the requirement list and the shared id
counter. -/
def processBlock (filter : RequirementFilter) (pc : Bool)
    (sectionId title : String) (acc : List Requirement × Nat) :
    ContentBlock → List Requirement × Nat
  | .text content reqs _ =>
    if reqs.length > 0 then
      reqs.foldl (fun acc marker =>
        if levelExcluded filter marker.level then acc
        else
          let sentence := extractSentence content marker.position
          let comp := if pc then parseRequirementComponents sentence marker.level
                      else {}
          (acc.1 ++ [mkRequirement sectionId title content
            ((trimChars sentence.data).asString) marker.level acc.2 comp],
           acc.2 + 1)) acc
    else acc
  | .list _ items =>
    items.foldl (fun acc item =>
      item.requirements.foldl (fun acc marker =>
        if levelExcluded filter marker.level then acc
        else
          let comp := if pc then
              parseRequirementComponents item.content marker.level
            else {}
          (acc.1 ++ [mkRequirement sectionId title item.content
            ((trimChars item.content.data).asString) marker.level acc.2 comp],
           acc.2 + 1)) acc) acc
  | _ => acc

mutual

/-- `processSection`: compute the section id (`number || anchor || path`),
process the blocks when the id passes the raw `startsWith` section filter,
then recurse into the subsections with paths
`` `${sectionId}.${subsection.number || ''}` ``. -/
def processSection (filter : RequirementFilter) (pc : Bool) :
    Sec → String → List Requirement × Nat → List Requirement × Nat
  | .mk anchor number title content subs, path, acc =>
    let sectionId := strOr number (strOr anchor path)
    let shouldProcess := match filter.«section» with
      | none => true
      | some fs => startsWithS sectionId fs
    let acc1 := if shouldProcess then
        content.foldl (processBlock filter pc sectionId title) acc
      else acc
    processSectionL filter pc subs sectionId acc1

def processSectionL (filter : RequirementFilter) (pc : Bool) :
    SecL → String → List Requirement × Nat → List Requirement × Nat
  | .nil, _, acc => acc
  | .cons sub rest, parentId, acc =>
    processSectionL filter pc rest parentId
      (processSection filter pc sub
        (parentId ++ "." ++ (sub.number.getD "")) acc)

end

/-- Top-level loop of `extractRequirementsFromSections`: each root section
starts with path `section.number || ''`. -/
def extractTopL (filter : RequirementFilter) (pc : Bool) :
    SecL → List Requirement × Nat → List Requirement × Nat
  | .nil, acc => acc
  | .cons sec rest, acc =>
    extractTopL filter pc rest
      (processSection filter pc sec (strOr sec.number "") acc)

/-- `extractRequirementsFromSections` with options `{parseComponents}`
(default `true` in the source). -/
def extractRequirementsFromSections (sections : SecL)
    (filter : RequirementFilter := {}) (parseComponents : Bool := true) :
    List Requirement :=
  (extractTopL filter parseComponents sections ([], 1)).1

/-- The section tree of the extractor's own test-suite
(`requirement-extractor` tests): XML-style ids carry the `section-` prefix
in `number`/`anchor`, text-style ids are bare dotted numbers. -/
def extractorTestSections : SecL := SecL.ofList
  [Sec.mk (some "section-3") (some "section-3") "Main Section"
    [ContentBlock.text "The client MUST send data."
      [⟨.must, 11⟩] []]
    (SecL.ofList
      [Sec.mk (some "section-3.5") (some "section-3.5") "Subsection 3.5"
        [ContentBlock.text "The server SHOULD respond."
          [⟨.should, 11⟩] []]
        (SecL.ofList
          [Sec.mk (some "section-3.5.1") (some "section-3.5.1")
            "Sub-subsection"
            [ContentBlock.text "Implementations MAY cache."
              [⟨.may, 16⟩] []] .nil])]),
   Sec.mk none (some "5") "Text Format Section"
    [ContentBlock.text "Endpoints MUST NOT close prematurely."
      [⟨.mustNot, 10⟩] []]
    (SecL.ofList
      [Sec.mk none (some "5.5") "Text Subsection"
        [ContentBlock.text "Clients SHALL validate input."
          [⟨.shall, 8⟩] []] .nil])]

/-- C4: the section filter of the extractor present in the repository is a
raw `startsWith` on the section id, with no `section-` prefix
normalization.  On the extractor's own test tree the filter `"section-3.5"`
yields the two requirements of sections section-3.5 / section-3.5.1 while
the supposedly equivalent filter `"3.5"` yields none — the prefix-
invariance the claim states (and the repository's own tests assert) fails. -/
theorem c4_section_filter_not_prefix_invariant :
    (extractRequirementsFromSections extractorTestSections
        { «section» := some "section-3.5" }).map Requirement.level =
      [.should, .may]
  ∧ extractRequirementsFromSections extractorTestSections
        { «section» := some "3.5" } = []
  ∧ extractRequirementsFromSections extractorTestSections
        { «section» := some "section-3.5" } ≠
      extractRequirementsFromSections extractorTestSections
        { «section» := some "3.5" } := by
  refine ⟨by decide, by decide, by decide⟩

/-!
## Section lookup (`utils/section.ts`) and the related-sections handler
(`tools/handlers.ts`, `handleGetRelatedSections`)
-/

/-- `normalizeSectionNumber`: strip one leading "section-" prefix. -/
def normalizeSectionNumber (s : String) : String :=
  if "section-".data.isPrefixOf s.data then (s.data.drop 8).asString else s

/-- The four-way match condition of `findSection`: normalized number or
anchor equals the normalized target, or the raw number or anchor equals the
raw target (`sec.number ? normalizeSectionNumber(sec.number) : ''` is
`normalizeSectionNumber` of the number-or-empty, since `''` normalizes to
itself). -/
def secMatches (sec : Sec) (target : String) : Bool :=
  let normalizedTarget := normalizeSectionNumber target
  normalizeSectionNumber (sec.number.getD "") = normalizedTarget ||
  normalizeSectionNumber (sec.anchor.getD "") = normalizedTarget ||
  sec.number = some target || sec.anchor = some target

mutual

/-- `findSection`: depth-first search over the section forest. -/
def findSection : SecL → String → Option Sec
  | .nil, _ => none
  | .cons sec rest, target =>
    match findSectionOne sec target with
    | some s => some s
    | none => findSection rest target

def findSectionOne : Sec → String → Option Sec
  | .mk anchor number title content subs, target =>
    if secMatches (.mk anchor number title content subs) target then
      some (.mk anchor number title content subs)
    else findSection subs target

end

mutual

/-- All nodes of a forest in depth-first order. -/
def allSecsL : SecL → List Sec
  | .nil => []
  | .cons s rest => allSecs s ++ allSecsL rest

def allSecs : Sec → List Sec
  | .mk a n t c subs => .mk a n t c subs :: allSecsL subs

end

mutual

theorem findSection_none_iff : ∀ (l : SecL) (t : String),
    findSection l t = none ↔ ∀ s ∈ allSecsL l, secMatches s t = false
  | .nil, t => by simp [findSection, allSecsL]
  | .cons sec rest, t => by
    simp only [findSection, allSecsL, List.mem_append]
    constructor
    · intro h s hs
      have h1 : findSectionOne sec t = none := by
        cases hone : findSectionOne sec t with
        | none => rfl
        | some v => rw [hone] at h; exact absurd h (by simp)
      rw [h1] at h
      rcases hs with hs | hs
      · exact (findSectionOne_none_iff sec t).mp h1 s hs
      · exact (findSection_none_iff rest t).mp h s hs
    · intro h
      have h1 : findSectionOne sec t = none :=
        (findSectionOne_none_iff sec t).mpr (fun s hs => h s (Or.inl hs))
      rw [h1]
      exact (findSection_none_iff rest t).mpr (fun s hs => h s (Or.inr hs))

theorem findSectionOne_none_iff : ∀ (s : Sec) (t : String),
    findSectionOne s t = none ↔ ∀ x ∈ allSecs s, secMatches x t = false
  | .mk a n ti c subs, t => by
    simp only [findSectionOne, allSecs, List.mem_cons]
    by_cases hm : secMatches (.mk a n ti c subs) t
    · simp only [hm, if_true]
      constructor
      · intro h; exact absurd h (by simp)
      · intro h
        exact absurd (h (.mk a n ti c subs) (Or.inl rfl)) (by simp [hm])
    · simp only [hm, if_false]
      constructor
      · intro h x hx
        rcases hx with rfl | hx
        · exact Bool.eq_false_iff.mpr hm
        · exact (findSection_none_iff subs t).mp h x hx
      · intro h
        exact (findSection_none_iff subs t).mpr (fun x hx => h x (Or.inr hx))

end

/-- `collectCrossReferences`: the section-typed cross-reference targets of
a section's text blocks, deduplicated in insertion order (the `Set` of the
source). -/
def collectCrossReferences (sec : Sec) : List String :=
  sec.content.foldl (fun refs block =>
    match block with
    | .text _ _ crs =>
      crs.foldl (fun refs r =>
        if r.type = "section" then
          match r.«section» with
          | some s =>
            if s = "" then refs
            else if refs.contains s then refs else refs ++ [s]
          | none => refs
        else refs) refs
    | _ => refs) []

/-- One entry of the related-sections result. -/
structure RelatedSectionEntry where
  number : String
  title : String
deriving DecidableEq, Repr

/-- The structured result of `handleGetRelatedSections`: either the
`{error: ...}` object or the `{section, title, relatedSections}` object. -/
inductive RelatedResult where
  | error (msg : String)
  | ok («section» : String) (title : String)
      (relatedSections : List RelatedSectionEntry)
deriving DecidableEq, Repr

/-- The post-parse core of `handleGetRelatedSections`: look the requested
section up with `findSection`; absent sections yield the structured
`{error: "Section X not found"}` result, present ones the related-section
numbers resolved back to titles (`'Unknown'` for unresolvable or falsy
titles). -/
def handleGetRelatedSections (parsed : ParsedRFC) (sectionArg : String) :
    RelatedResult :=
  match findSection parsed.sections sectionArg with
  | none => .error ("Section " ++ sectionArg ++ " not found")
  | some targetSection =>
    .ok sectionArg targetSection.title
      ((collectCrossReferences targetSection).map fun secNum =>
        { number := secNum,
          title := match findSection parsed.sections secNum with
            | some sec => if sec.title = "" then "Unknown" else sec.title
            | none => "Unknown" })

/-- C9: a related-sections query for a section id matching no node of the
parsed document — by number or anchor, with or without the "section-"
prefix, which is exactly `findSection` returning nothing (first conjunct) —
produces the structured `{error: "Section X not found"}` result rather
than an exception, and a query for an existing section produces the
`{section, title, relatedSections}` result with no error. -/
theorem c9_related_sections_error_result :
    (∀ (l : SecL) (t : String),
        findSection l t = none ↔ ∀ s ∈ allSecsL l, secMatches s t = false)
  ∧ (∀ (parsed : ParsedRFC) (sectionArg : String),
        findSection parsed.sections sectionArg = none →
        handleGetRelatedSections parsed sectionArg =
          .error ("Section " ++ sectionArg ++ " not found"))
  ∧ (∀ (parsed : ParsedRFC) (sectionArg : String) (sec : Sec),
        findSection parsed.sections sectionArg = some sec →
        ∃ entries, handleGetRelatedSections parsed sectionArg =
          .ok sectionArg sec.title entries) := by
  refine ⟨findSection_none_iff, ?_, ?_⟩
  · intro parsed sectionArg h
    simp [handleGetRelatedSections, h]
  · intro parsed sectionArg sec h
    refine ⟨(collectCrossReferences sec).map fun secNum =>
      { number := secNum,
        title := match findSection parsed.sections secNum with
          | some s => if s.title = "" then "Unknown" else s.title
          | none => "Unknown" }, ?_⟩
    simp [handleGetRelatedSections, h]

/-- The handler test document: two sections with anchors in the
"section-N" form; section 1 cross-references section 2. -/
def relatedDocSec1 : Sec :=
  .mk (some "section-1") (some "section-1") "Introduction"
    [ContentBlock.text
      "The client MUST connect to the server. See Section 2 for details."
      [⟨.must, 11⟩] [⟨"2", "section", some "2", none⟩]] .nil

def relatedDocSec2 : Sec :=
  .mk (some "section-2") (some "section-2") "Protocol Details"
    [ContentBlock.text "The server SHOULD respond quickly."
      [⟨.should, 11⟩] []] .nil

def relatedDoc : ParsedRFC :=
  { metadata := ⟨"Test RFC for Handlers", none, some 9999⟩,
    sections := SecL.ofList [relatedDocSec1, relatedDocSec2],
    references := ⟨[], []⟩, definitions := [] }

/-- C9 witness: the handler theorem applied to the concrete document — a
missing id produces the error object, an anchor-form id finds its
section. -/
theorem c9_related_sections_error_result_witness :
    handleGetRelatedSections relatedDoc "999" =
      .error ("Section " ++ "999" ++ " not found")
  ∧ ∃ entries, handleGetRelatedSections relatedDoc "section-1" =
      .ok "section-1" "Introduction" entries :=
  ⟨c9_related_sections_error_result.2.1 relatedDoc "999" (by decide),
   c9_related_sections_error_result.2.2 relatedDoc "section-1" relatedDocSec1
     (by decide)⟩

/-!
## Longest-match properties of the keyword scan
-/

theorem scanFuel_mem : ∀ (text : Chars) (fuel i : Nat)
    (p : RequirementLevel × Nat), p ∈ scanFuel text fuel i →
    tryKeywordsAt text p.2 = some p.1 ∧ i ≤ p.2 := by
  intro text fuel
  induction fuel with
  | zero => intro i p hp; simp [scanFuel] at hp
  | succ fuel ih =>
    intro i p hp
    simp only [scanFuel] at hp
    by_cases hi : i < text.length
    · rw [if_pos hi] at hp
      cases htry : tryKeywordsAt text i with
      | some k =>
        rw [htry] at hp
        rcases List.mem_cons.mp hp with rfl | hp2
        · exact ⟨htry, le_rfl⟩
        · have h2 := ih (i + (keywordOf k).data.length) p hp2
          exact ⟨h2.1, le_trans (Nat.le_add_right i _) h2.2⟩
      | none =>
        rw [htry] at hp
        have h2 := ih (i + 1) p hp
        exact ⟨h2.1, le_trans (Nat.le_succ i) h2.2⟩
    · rw [if_neg hi] at hp
      exact absurd hp (List.not_mem_nil p)

theorem scanFuel_chain : ∀ (text : Chars) (fuel i : Nat),
    List.Chain' (fun a b => a.2 + (keywordOf a.1).data.length ≤ b.2)
      (scanFuel text fuel i) := by
  intro text fuel
  induction fuel with
  | zero => intro i; simp [scanFuel]
  | succ fuel ih =>
    intro i
    simp only [scanFuel]
    by_cases hi : i < text.length
    · rw [if_pos hi]
      cases htry : tryKeywordsAt text i with
      | some k =>
        apply List.chain'_cons'.mpr
        refine ⟨?_, ih (i + (keywordOf k).data.length)⟩
        intro b hb
        exact (scanFuel_mem text fuel (i + (keywordOf k).data.length) b
          (List.mem_of_mem_head? hb)).2
      | none => exact ih (i + 1)
    · rw [if_neg hi]; simp

theorem find?_append_not_mem {α : Type} (p : α → Bool) :
    ∀ (pre post : List α) (a : α), (pre ++ post).find? p = some a →
    a ∉ pre → ∀ b ∈ pre, p b = false := by
  intro pre
  induction pre with
  | nil => intro post a _ _ b hb; exact absurd hb (List.not_mem_nil b)
  | cons x pre ih =>
    intro post a h ha b hb
    rw [List.cons_append] at h
    cases hpx : p x with
    | true =>
      rw [List.find?_cons_of_pos _ hpx] at h
      exact absurd (Option.some.inj h) (fun hxa => ha (hxa ▸ List.mem_cons_self _ _))
    | false =>
      rw [List.find?_cons_of_neg _ (by simp [hpx])] at h
      rcases List.mem_cons.mp hb with rfl | hb2
      · exact hpx
      · exact ih post a h (fun hm => ha (List.mem_cons_of_mem _ hm)) b hb2

/-- The ordered alternation picks the longest keyword matching (with its
word boundaries) at a given position: among the eleven keywords, two can
match at the same position only when one is a prefix of the other (MUST /
MUST NOT, SHALL / SHALL NOT, SHOULD / SHOULD NOT), and in each such pair
the longer keyword is listed first. -/
theorem tryKeywordsAt_longest (text : Chars) (i : Nat)
    (k k' : RequirementLevel) (h : tryKeywordsAt text i = some k)
    (h' : matchesAt text i (keywordOf k').data = true) :
    (keywordOf k').data.length ≤ (keywordOf k).data.length := by
  have hk : matchesAt text i (keywordOf k).data = true := by
    have hh : REQUIREMENT_KEYWORDS.find?
        (fun kk => matchesAt text i (keywordOf kk).data) = some k := h
    simpa using List.find?_some hh
  by_contra hlen
  push_neg at hlen
  have hpre : (keywordOf k).data <+: (keywordOf k').data := by
    have hk2 := hk
    have hq2 := h'
    simp only [matchesAt, Bool.and_eq_true] at hk2 hq2
    have h1 : (keywordOf k).data <+: text.drop i :=
      List.isPrefixOf_iff_prefix.mp hk2.1.1
    have h2 : (keywordOf k').data <+: text.drop i :=
      List.isPrefixOf_iff_prefix.mp hq2.1.1
    rcases List.prefix_or_prefix_of_prefix h1 h2 with hp | hp
    · exact hp
    · exact absurd hp.length_le (not_le.mpr hlen)
  cases k <;> cases k' <;>
    first
    | exact absurd hlen (by decide)
    | exact absurd hpre (by decide)
    | skip
  case must.mustNot =>
    have hfalse := find?_append_not_mem
      (fun kk => matchesAt text i (keywordOf kk).data)
      [.mustNot]
      [.must, .required, .shallNot, .shall, .shouldNot, .should,
       .recommended, .notRecommended, .may, .optionalLv]
      .must h (by decide) .mustNot (by decide)
    simp only [hfalse] at h'
    exact absurd h' (by simp)
  case shall.shallNot =>
    have hfalse := find?_append_not_mem
      (fun kk => matchesAt text i (keywordOf kk).data)
      [.mustNot, .must, .required, .shallNot]
      [.shall, .shouldNot, .should, .recommended, .notRecommended, .may,
       .optionalLv]
      .shall h (by decide) .shallNot (by decide)
    simp only [hfalse] at h'
    exact absurd h' (by simp)
  case should.shouldNot =>
    have hfalse := find?_append_not_mem
      (fun kk => matchesAt text i (keywordOf kk).data)
      [.mustNot, .must, .required, .shallNot, .shall, .shouldNot]
      [.should, .recommended, .notRecommended, .may, .optionalLv]
      .should h (by decide) .shouldNot (by decide)
    simp only [hfalse] at h'
    exact absurd h' (by simp)

/-- C6: the marker scan prefers the longest keyword at a position.  (i) Any
emitted marker `(k, i)` has maximal length among the keywords matching at
`i` — in particular a position carrying "MUST NOT" never yields a MUST
marker.  (ii) Consecutive markers never overlap: each next marker starts at
or after the end of the previous keyword, so no second marker is emitted
inside a matched "MUST NOT".  (iii) On a concrete text containing
"MUST NOT support X" the scan yields exactly one marker, at that
occurrence, with level MUST NOT. -/
theorem c6_longest_keyword_match :
    (∀ (text : Chars) (i : Nat) (k k' : RequirementLevel),
        (k, i) ∈ scanFrom text 0 →
        matchesAt text i (keywordOf k').data = true →
        (keywordOf k').data.length ≤ (keywordOf k).data.length)
  ∧ (∀ (text : Chars),
        List.Chain' (fun a b => a.2 + (keywordOf a.1).data.length ≤ b.2)
          (scanFrom text 0))
  ∧ scanMarkers "The client MUST NOT support X" = [(.mustNot, 11)] := by
  refine ⟨?_, fun text => scanFuel_chain text _ 0, by decide⟩
  intro text i k k' hmem h'
  exact tryKeywordsAt_longest text i k k'
    (scanFuel_mem text _ 0 (k, i) hmem).1 h'

/-- C6 witness: at position 11 of the sample both MUST and MUST NOT match,
and the scan theorem bounds any matching keyword by the emitted MUST NOT. -/
theorem c6_longest_keyword_match_witness :
    matchesAt "The client MUST NOT support X".data 11 "MUST".data = true
  ∧ ("MUST".data.length ≤ "MUST NOT".data.length) :=
  ⟨by decide,
   c6_longest_keyword_match.1 "The client MUST NOT support X".data 11
     .mustNot .must (by decide) (by decide)⟩

/-!
## Structured-markup parser (`services/rfcxml-parser.ts`)

The third-party XML parser is configured with `parseTagValue:false` and
`parseAttributeValue:false`, so its output is a JSON-like tree of strings,
arrays and objects (attributes under "@_"-prefixed keys, text nodes under
"#text").  `XVal` models that output; `parseRFCXMLV` embeds everything the
repository does after `parser.parse`.  The family is mutual so recursion
stays structural.
-/

mutual

inductive XVal where
  | str (s : String)
  | arr (xs : XList)
  | obj (fields : XFields)
deriving DecidableEq, Repr

inductive XList where
  | nil
  | cons (head : XVal) (tail : XList)
deriving DecidableEq, Repr

inductive XFields where
  | nil
  | cons (key : String) (val : XVal) (tail : XFields)
deriving DecidableEq, Repr

end

def XList.toList : XList → List XVal
  | .nil => []
  | .cons v rest => v :: rest.toList

def lookupX : XFields → String → Option XVal
  | .nil, _ => none
  | .cons k v rest, key => if k = key then some v else lookupX rest key

/-- JS property access `v[k]` (undefined on strings and arrays). -/
def getFieldX (v : XVal) (k : String) : Option XVal :=
  match v with
  | .obj fs => lookupX fs k
  | _ => none

/-- JS truthiness of a parsed value: only the empty string is falsy. -/
def truthy (v : XVal) : Bool :=
  match v with
  | .str s => !s.isEmpty
  | _ => true

/-- An attribute value; the XML parser only produces string attributes. -/
def attrString (v : XVal) (k : String) : Option String :=
  match getFieldX v k with
  | some (.str s) => some s
  | _ => none

/-- `toArray` (`utils/text.ts`) on a possibly missing value: falsy becomes
`[]`, an array stays, anything else is wrapped. -/
def toArrayX (v : Option XVal) : XList :=
  match v with
  | none => .nil
  | some x =>
    if truthy x then
      match x with
      | .arr xs => xs
      | _ => .cons x .nil
    else .nil

/-!
`extractText`: a string is itself; a non-empty "#text" field wins (the
parser stores text nodes as strings); otherwise the concatenation over all
non-attribute fields, where an array field is joined with single spaces;
the result is trimmed.  An array node concatenates its elements (its keys
are the indices) and trims.
-/

mutual

def extractTextV : XVal → String
  | .str s => s
  | .arr xs => (trimChars (extractTextConcat xs).data).asString
  | .obj fs =>
    match lookupX fs "#text" with
    | some (.str s) =>
      if s = "" then (trimChars (extractTextFields fs).data).asString else s
    | _ => (trimChars (extractTextFields fs).data).asString

def extractTextConcat : XList → String
  | .nil => ""
  | .cons (.arr xs) rest => joinSpace xs ++ extractTextConcat rest
  | .cons v rest => extractTextV v ++ extractTextConcat rest

def extractTextFields : XFields → String
  | .nil => ""
  | .cons k (.arr xs) rest =>
    (if "@_".data.isPrefixOf k.data then "" else joinSpace xs) ++
    extractTextFields rest
  | .cons k v rest =>
    (if "@_".data.isPrefixOf k.data then "" else extractTextV v) ++
    extractTextFields rest

def joinSpace : XList → String
  | .nil => ""
  | .cons v .nil => extractTextV v
  | .cons v rest => extractTextV v ++ " " ++ joinSpace rest

end

def extractTextO (v : Option XVal) : String :=
  match v with
  | none => ""
  | some x => extractTextV x

/-- `parsed.rfc || parsed`: fall back to the whole parse result when the
top-level `rfc` wrapper is absent (or falsy). -/
def rfcRoot (parsed : XVal) : XVal :=
  match getFieldX parsed "rfc" with
  | some r => if truthy r then r else parsed
  | none => parsed

/-- `rfc.front || {}`. -/
def frontOf (rfc : XVal) : XVal :=
  match getFieldX rfc "front" with
  | some f => if truthy f then f else .obj .nil
  | none => .obj .nil

/-- `extractMetadata`: title with the `'Untitled'` placeholder, optional
docName and parsed number (`parseInt` of a non-numeric attribute, NaN, is
modelled as an absent number). -/
def extractMetadataX (rfc : XVal) : DocMetadata :=
  let front := frontOf rfc
  { title :=
      (let t := extractTextO (getFieldX front "title")
       if t = "" then "Untitled" else t),
    docName := attrString rfc "@_docName",
    number :=
      match attrString rfc "@_number" with
      | some s => if s = "" then none else tsParseInt s.data
      | none => none }

/-- JS `a || b` on two optional strings. -/
def jsOrOpt (a b : Option String) : Option String :=
  match a with
  | some s => if s = "" then b else some s
  | none => b

/-- `Array.isArray(x) ? x : [x]` (applied after a truthiness check). -/
def asList (x : XVal) : XList :=
  match x with
  | .arr xs => xs
  | _ => .cons x .nil

/-- `extractContent`: paragraphs, unordered and ordered lists, source code
and artwork, in that order; each paragraph is a `createTextBlock` (dropped
when its text is empty), each list item is scanned for markers. -/
def extractContent (sec : XVal) : List ContentBlock :=
  ((toArrayX (getFieldX sec "t")).toList.filterMap fun t =>
    let text := extractTextV t
    if text = "" then none
    else some (ContentBlock.text text (markersOf text)
      (extractCrossReferences text))) ++
  ((toArrayX (getFieldX sec "ul")).toList.map fun list =>
    ContentBlock.list "symbols"
      ((toArrayX (getFieldX list "li")).toList.map fun li =>
        ⟨extractTextV li, markersOf (extractTextV li)⟩)) ++
  ((toArrayX (getFieldX sec "ol")).toList.map fun list =>
    ContentBlock.list "numbers"
      ((toArrayX (getFieldX list "li")).toList.map fun li =>
        ⟨extractTextV li, markersOf (extractTextV li)⟩)) ++
  ((toArrayX (getFieldX sec "sourcecode")).toList.map fun code =>
    ContentBlock.sourcecode (attrString code "@_type") (extractTextV code)) ++
  ((toArrayX (getFieldX sec "artwork")).toList.map fun art =>
    ContentBlock.artwork (extractTextV art))

/-!
Sizes of `XVal` trees, used only to supply enough fuel to the traversals
below: every recursive call moves to a structure of strictly smaller size
(a field of an element, or the tail of a list), so "size of the root plus a
small constant" bounds the length of any call chain.
-/

mutual

def xsizeV : XVal → Nat
  | .str _ => 1
  | .arr xs => 1 + xsizeL xs
  | .obj fs => 1 + xsizeF fs

def xsizeL : XList → Nat
  | .nil => 1
  | .cons v rest => 1 + xsizeV v + xsizeL rest

def xsizeF : XFields → Nat
  | .nil => 1
  | .cons _ v rest => 1 + xsizeV v + xsizeF rest

end

/-- The recursive section mapper of `extractSections`: each section element
yields anchor / number (`@_pn || @_numbered`) / name (with the
`'Untitled Section'` placeholder) / content / recursively extracted
subsections (`extractSections(sec.section)`, whose falsy argument yields
`[]`). -/
def extractSecsGo : Nat → XList → SecL
  | 0, _ => .nil
  | _ + 1, .nil => .nil
  | fuel + 1, .cons sec rest =>
    let subs := match getFieldX sec "section" with
      | some s => if truthy s then extractSecsGo fuel (asList s) else .nil
      | none => .nil
    .cons (Sec.mk (attrString sec "@_anchor")
        (jsOrOpt (attrString sec "@_pn") (attrString sec "@_numbered"))
        (let t := extractTextO (getFieldX sec "name")
         if t = "" then "Untitled Section" else t)
        (extractContent sec) subs)
      (extractSecsGo fuel rest)

/-- `extractSections(rfc.middle?.section || [])`. -/
def sectionsOfRfc (rfc : XVal) : SecL :=
  let v := match (getFieldX rfc "middle").bind (fun m => getFieldX m "section") with
    | some s => if truthy s then s else .arr .nil
    | none => .arr .nil
  extractSecsGo (xsizeV v + 2) (asList v)

/-- `collectReferenceSections`: flatten arbitrarily nested `references`
containers; a section is collected when it directly holds a `reference` or
`referencegroup`. -/
def collectRefSecsGo : Nat → XList → List XVal
  | 0, _ => []
  | _ + 1, .nil => []
  | fuel + 1, .cons s rest =>
    (if (match getFieldX s "reference" with
         | some v => truthy v
         | none => false) ||
        (match getFieldX s "referencegroup" with
         | some v => truthy v
         | none => false) then [s] else []) ++
    (match getFieldX s "references" with
     | some nested =>
       if truthy nested then collectRefSecsGo fuel (toArrayX (some nested))
       else []
     | none => []) ++
    collectRefSecsGo fuel rest

/-- `parseReference`: anchor, classification, RFC number from the last
`seriesInfo` entry named RFC (an unparsable value, NaN, is modelled as
absent), title, target. -/
def parseReferenceX (ref : XVal) (type : String) : RFCReference :=
  let front := match getFieldX ref "front" with
    | some f => if truthy f then f else .obj .nil
    | none => .obj .nil
  { anchor := (match attrString ref "@_anchor" with
      | some s => s
      | none => ""),
    type := type,
    rfcNumber :=
      (toArrayX (getFieldX ref "seriesInfo")).toList.foldl (fun acc info =>
        if attrString info "@_name" = some "RFC" then
          match attrString info "@_value" with
          | some s => tsParseInt s.data
          | none => none
        else acc) none,
    title := extractTextO (getFieldX front "title"),
    target := attrString ref "@_target" }

/-- `extractReferences`: flatten the containers, classify each by whether
its name / anchor / pn / slugified name contains "normative", and parse the
direct references and the reference-group members. -/
def extractReferencesX (referenceSections : XVal) : References :=
  let flatSections := collectRefSecsGo (xsizeV referenceSections + 2)
    (toArrayX (some referenceSections))
  flatSections.foldl (fun result refSection =>
    let sectionName := strLower (extractTextO (getFieldX refSection "name"))
    let anchorAttr := strLower (match attrString refSection "@_anchor" with
      | some s => s
      | none => "")
    let pnAttr := strLower (match attrString refSection "@_pn" with
      | some s => s
      | none => "")
    let slugAttr := match (getFieldX refSection "name").bind
        (fun n => getFieldX n "@_slugifiedName") with
      | some (.str s) => strLower s
      | _ => ""
    let isNormative :=
      containsSub sectionName.data "normative".data ||
      containsSub anchorAttr.data "normative".data ||
      containsSub pnAttr.data "normative".data ||
      containsSub slugAttr.data "normative".data
    let refs := (toArrayX (getFieldX refSection "reference")).toList ++
      (toArrayX (getFieldX refSection "referencegroup")).toList.flatMap
        (fun g => (toArrayX (getFieldX g "reference")).toList)
    refs.foldl (fun result ref =>
      let rfcRef := parseReferenceX ref
        (if isNormative then "normative" else "informative")
      if isNormative then
        { result with normative := result.normative ++ [rfcRef] }
      else
        { result with informative := result.informative ++ [rfcRef] }) result)
    ⟨[], []⟩

/-- `rfc.back?.references || []`. -/
def backReferences (rfc : XVal) : XVal :=
  match (getFieldX rfc "back").bind (fun b => getFieldX b "references") with
  | some r => if truthy r then r else .arr .nil
  | none => .arr .nil

/-!
`findDefinitionLists`: traverse the whole tree; definition lists yield
term/description pairs (both must be non-empty), a `section` key switches
the section context to the child's `@_pn || @_anchor || ''`, strings are
not objects and are skipped.
-/

mutual

def defsGoV : Nat → XVal → String → List Definition
  | 0, _, _ => []
  | fuel + 1, v, sectionCtx =>
    match v with
    | .str _ => []
    | .arr xs => defsGoL fuel xs sectionCtx
    | .obj fs =>
      (if (match lookupX fs "dl" with
           | some d => truthy d
           | none => false) then
        (toArrayX (lookupX fs "dl")).toList.foldl (fun acc dl =>
          let dts := (toArrayX (getFieldX dl "dt")).toList
          let dds := (toArrayX (getFieldX dl "dd")).toList
          (List.range dts.length).foldl (fun acc i =>
            let term := extractTextO (dts.get? i)
            let definition := extractTextO (dds.get? i)
            if term ≠ "" && definition ≠ "" then
              acc ++ [{ term := term, definition := definition,
                        «section» := sectionCtx }]
            else acc) acc) []
      else []) ++
      defsGoF fuel fs sectionCtx

def defsGoL : Nat → XList → String → List Definition
  | 0, _, _ => []
  | _ + 1, .nil, _ => []
  | fuel + 1, .cons v rest, sectionCtx =>
    (match v with
     | .str _ => []
     | _ => defsGoV fuel v sectionCtx) ++
    defsGoL fuel rest sectionCtx

def defsGoF : Nat → XFields → String → List Definition
  | 0, _, _ => []
  | _ + 1, .nil, _ => []
  | fuel + 1, .cons k v rest, sectionCtx =>
    (if k = "section" then
      (toArrayX (some v)).toList.flatMap (fun sec =>
        let secNum := strOr (attrString sec "@_pn")
          (strOr (attrString sec "@_anchor") "")
        defsGoV fuel sec secNum)
    else
      match v with
      | .str _ => []
      | _ => defsGoV fuel v sectionCtx) ++
    defsGoF fuel rest sectionCtx

end

/-- `extractDefinitions` over the whole document. -/
def extractDefinitionsX (rfc : XVal) : List Definition :=
  defsGoV (xsizeV rfc + 1) rfc ""

/-- `parseRFCXML` after the third-party parse: a total function on parsed
values — wrapper fallback, metadata, sections, references, definitions. -/
def parseRFCXMLV (parsed : XVal) : ParsedRFC :=
  let rfc := rfcRoot parsed
  { metadata := extractMetadataX rfc,
    sections := sectionsOfRfc rfc,
    references := extractReferencesX (backReferences rfc),
    definitions := extractDefinitionsX rfc }

/-- C8: Parsing is total.  Both pipelines are embedded as total Lean
functions (`parseRFCText` on any text, `parseRFCXMLV` on any parsed XML
value), so no input raises.  Concretely: (1) on the empty string the
plain-text parser returns the placeholder document — title `"RFC <n>"`,
no sections, references or definitions; (2) when the top-level `rfc`
wrapper is absent the structured parser treats the whole parse result as
the document; (3) when no title text can be extracted from the front
matter the structured parser substitutes `"Untitled"`; (4) on an empty
parse result the structured parser returns the all-placeholder document. -/
theorem c8_parsing_total :
    (∀ (n : Nat), parseRFCText "" n =
      ⟨⟨"RFC " ++ toString n, none, some n⟩, .nil, ⟨[], []⟩, []⟩) ∧
    (∀ (v : XVal), getFieldX v "rfc" = none → rfcRoot v = v) ∧
    (∀ (rfc : XVal), extractTextO (getFieldX (frontOf rfc) "title") = "" →
      (extractMetadataX rfc).title = "Untitled") ∧
    parseRFCXMLV (.obj .nil) =
      ⟨⟨"Untitled", none, none⟩, .nil, ⟨[], []⟩, []⟩ := by
  refine ⟨fun n => rfl, fun v h => ?_, fun rfc h => ?_, by decide⟩
  · simp [rfcRoot, h]
  · simp [extractMetadataX, h]

/-- Witness: the wrapper-fallback and placeholder-title conjuncts of
`c8_parsing_total` instantiated at concrete inputs. -/
theorem c8_parsing_total_witness :
    getFieldX (XVal.str "doc") "rfc" = none ∧
    rfcRoot (XVal.str "doc") = XVal.str "doc" ∧
    extractTextO (getFieldX (frontOf (XVal.obj .nil)) "title") = "" ∧
    (extractMetadataX (XVal.obj .nil)).title = "Untitled" ∧
    parseRFCText "" 9999 =
      ⟨⟨"RFC " ++ toString 9999, none, some 9999⟩, .nil, ⟨[], []⟩, []⟩ :=
  ⟨by decide, c8_parsing_total.2.1 (XVal.str "doc") (by decide),
   by decide, c8_parsing_total.2.2.1 (XVal.obj .nil) (by decide),
   c8_parsing_total.1 9999⟩

end RfcMcp
